import Mathlib

/-!
# Verification of the wallet-lib cryptographic core

Shallow embedding of the TypeScript sources of the wallet library
(Shamir secret sharing over the secp256k1 group order, the MPC wallet,
the guardian manager, the recovery coordinator and the social-recovery
facade), together with proofs and refutations of the specification
claims.

Conventions:
* JavaScript `bigint` values are embedded as `ℕ` when they are provably
  non-negative, and as `ℤ` with `Int.tmod` (the truncating remainder,
  which matches the sign behaviour of the JavaScript `%` operator) where
  intermediate values can be negative.
* Loops are embedded as folds; `for (i …) if (i !== j)` loops become
  folds over `List.enum` with an index guard.
* Randomness (`randomBytes`) is passed in as an explicit argument.
* Functions that `throw` are embedded with `Except String`.
-/

namespace Shamir

/-- Prime field modulus for the secp256k1 curve order (`PRIME` in `shamir.ts`). -/
def PRIME : ℕ := 0xFFFFFFFFFFFFFFFFFFFFFFFFFFFFFFFEBAAEDCE6AF48A03BBFD25E8CD0364141

/-- A single share of a split secret (`Share` in `shamir.ts`):
`x` is the 1-based index, `y` the value as a hex string. -/
structure Share where
  x : ℕ
  y : String
deriving DecidableEq, Repr

/-- Numeric value of one hex digit (both cases), as in JavaScript
`BigInt('0x…')` parsing.  Non-hex characters do not occur in the strings
this library produces; they are mapped to 0. -/
def hexCharVal (c : Char) : ℕ :=
  if '0' ≤ c ∧ c ≤ '9' then c.toNat - '0'.toNat
  else if 'a' ≤ c ∧ c ≤ 'f' then c.toNat - 'a'.toNat + 10
  else if 'A' ≤ c ∧ c ≤ 'F' then c.toNat - 'A'.toNat + 10
  else 0

/-- Hex parsing of a character list, most significant digit first. -/
def hexListToNat (l : List Char) : ℕ :=
  l.foldl (fun acc c => acc * 16 + hexCharVal c) 0

/-- `hexToBigInt` from `shamir.ts`: strip an optional `0x` prefix, then
parse as hex. -/
def hexToBigInt (hex : String) : ℕ :=
  let cs := hex.data
  let cleanHex := if cs.take 2 = ['0', 'x'] then cs.drop 2 else cs
  hexListToNat cleanHex

/-- Lower-case hex digit for a value `< 16`, as produced by
JavaScript `toString(16)`. -/
def hexDigitChar (n : ℕ) : Char :=
  if n < 10 then Char.ofNat ('0'.toNat + n) else Char.ofNat ('a'.toNat + (n - 10))

/-- Hex digits of `n` (most significant first, no leading zeros, empty for 0).
The first argument is recursion fuel; `n + 1` is always enough since the
value is divided by 16 at each step. -/
def toHexAux : ℕ → ℕ → List Char
  | 0, _ => []
  | fuel + 1, n => if n = 0 then [] else toHexAux fuel (n / 16) ++ [hexDigitChar (n % 16)]

/-- JavaScript `value.toString(16)` for a non-negative bigint. -/
def natToHexDigits (n : ℕ) : List Char :=
  if n = 0 then ['0'] else toHexAux (n + 1) n

/-- `bigIntToHex` from `shamir.ts`: `toString(16)` then `padStart(64, '0')`. -/
def bigIntToHex (value : ℕ) : String :=
  let hex := natToHexDigits value
  ⟨List.replicate (64 - hex.length) '0' ++ hex⟩

/-- One step of the square-and-multiply loop of `modPow` from `shamir.ts`.
The first argument is recursion fuel: the source loop runs while
`exp > 0`, halving `exp` each iteration, so `exp + 1` steps always
suffice. -/
def modPowAux (m : ℕ) : ℕ → ℕ → ℕ → ℕ → ℕ
  | 0, _, _, result => result
  | fuel + 1, base, exp, result =>
    if exp = 0 then result
    else
      modPowAux m fuel (base * base % m) (exp / 2)
        (if exp % 2 = 1 then result * base % m else result)

/-- `modPow` from `shamir.ts`: `(base ^ exp) mod m` by square-and-multiply. -/
def modPow (base exp m : ℕ) : ℕ :=
  modPowAux m (exp + 1) (base % m) exp 1

/-- `modInverse` from `shamir.ts`: inverse via Fermat's little theorem. -/
def modInverse (a m : ℕ) : ℕ :=
  modPow a (m - 2) m

/-- `evaluatePolynomial` from `shamir.ts`: Evaluate the polynomial with the
given coefficients (constant term first) at `x`, accumulating the powers of
`x`, everything reduced mod `PRIME`. -/
def evaluatePolynomial (coefficients : List ℕ) (x : ℕ) : ℕ :=
  let rp := coefficients.foldl
    (fun rp coef => ((rp.1 + coef * rp.2) % PRIME, rp.2 * x % PRIME))
    (0, 1)
  (rp.1 % PRIME + PRIME) % PRIME

/-- `splitSecret` from `shamir.ts`.  The `threshold - 1` random field
elements drawn by the source for the non-constant coefficients are passed
in as `randomCoeffs`. -/
def splitSecret (secret : String) (totalShares threshold : ℕ)
    (randomCoeffs : List ℕ) : Except String (List Share) :=
  if threshold < 2 then .error "Threshold must be at least 2"
  else if totalShares < threshold then .error "Total shares must be >= threshold"
  else if 255 < totalShares then .error "Maximum 255 shares supported"
  else
    let secretBigInt := hexToBigInt secret
    if PRIME ≤ secretBigInt then .error "Secret too large for prime field"
    else
      let coefficients := secretBigInt :: randomCoeffs
      .ok ((List.range totalShares).map fun i =>
        { x := i + 1, y := bigIntToHex (evaluatePolynomial coefficients (i + 1)) })

/-- The body of the outer accumulation loop of `combineShares`: the
contribution of share `i` (`yᵢ · Lᵢ(0)`), added to the accumulator mod
`PRIME`.  The inner loops over `j ≠ i` are folds over the enumerated share
list; the intermediate products are signed and reduced with the truncating
remainder, exactly as JavaScript `%` behaves on `bigint`. -/
def combineStep (shares : List Share) (secret : ℕ) (ip : ℕ × Share) : ℕ :=
  let xi : ℤ := ip.2.x
  let yi : ℕ := hexToBigInt ip.2.y
  let numerator : ℤ := shares.enum.foldl
    (fun num jp => if ip.1 = jp.1 then num else (num * (-(jp.2.x : ℤ))).tmod PRIME) 1
  let denominator : ℤ := shares.enum.foldl
    (fun den jp => if ip.1 = jp.1 then den else (den * (xi - (jp.2.x : ℤ))).tmod PRIME) 1
  let numeratorN : ℕ := ((numerator.tmod PRIME + PRIME).tmod PRIME).toNat
  let denominatorN : ℕ := ((denominator.tmod PRIME + PRIME).tmod PRIME).toNat
  let lagrangeBasis := numeratorN * modInverse denominatorN PRIME % PRIME
  (secret + yi * lagrangeBasis) % PRIME

/-- `combineShares` from `shamir.ts`: Lagrange interpolation at 0. -/
def combineShares (shares : List Share) : Except String String :=
  if shares.length < 2 then .error "Need at least 2 shares to reconstruct"
  else if ¬ (shares.map (·.x)).Nodup then .error "Duplicate share indices detected"
  else
    let secret := shares.enum.foldl (combineStep shares) 0
    .ok (bigIntToHex ((secret % PRIME + PRIME) % PRIME))

/-- `randomFieldElement` from `shamir.ts`: interpret 32 random bytes as a
big-endian number and reduce it mod `PRIME`.  The random bytes are passed
in as a list. -/
def randomFieldElement (bytes : List ℕ) : ℕ :=
  (bytes.foldl (fun value byte => (value <<< 8) ||| byte) 0) % PRIME

end Shamir

namespace Recovery

/-- Recovery request status (`RecoveryStatus` in `recovery.ts`). -/
inductive RecoveryStatus where
  | pending
  | approved
  | ready
  | executed
  | cancelled
  | expired
deriving DecidableEq, Repr

/-- Guardian approval for a recovery request (`GuardianApproval`). -/
structure GuardianApproval where
  guardianId : String
  shareIndex : ℕ
  shareValue : String
  approvedAt : ℕ
  signature : Option String := none
deriving DecidableEq, Repr

/-- The argument of `addApproval` (`Omit<GuardianApproval, 'approvedAt'>`). -/
structure GuardianApprovalInput where
  guardianId : String
  shareIndex : ℕ
  shareValue : String
  signature : Option String := none
deriving DecidableEq, Repr

/-- A recovery request (`RecoveryRequest` in `recovery.ts`).  Timestamps are
integer milliseconds; optional fields are `Option`. -/
structure RecoveryRequest where
  id : String
  walletAddress : String
  keyId : String
  initiator : String
  reason : String
  status : RecoveryStatus
  threshold : ℕ
  approvals : List GuardianApproval
  timelockMs : ℕ
  createdAt : ℕ
  approvedAt : Option ℕ := none
  timelockExpiresAt : Option ℕ := none
  expiresAt : ℕ
  executedAt : Option ℕ := none
  recoveredSecret : Option String := none
deriving DecidableEq, Repr

/-- The manager's `requests` map, in insertion order.  The map is keyed by
`id`; the configuration and cooldown bookkeeping are not needed by the
operations modelled here. -/
def Requests := List RecoveryRequest

/-- `this.requests.get(requestId)`. -/
def findReq (m : List RecoveryRequest) (requestId : String) : Option RecoveryRequest :=
  m.find? (fun r => r.id = requestId)

/-- Persist an in-place mutation of the request object held in the map:
every entry with the same `id` is replaced (ids are unique keys in the
JavaScript `Map`). -/
def setReq (m : List RecoveryRequest) (r : RecoveryRequest) : List RecoveryRequest :=
  m.map (fun q => if q.id = r.id then r else q)

/-- The `request.timelockExpiresAt && now >= request.timelockExpiresAt`
condition of `updateRequestStatus`, with JavaScript truthiness modelled
exactly: the field must be present and non-zero. -/
def timelockPassed (now : ℕ) (r : RecoveryRequest) : Bool :=
  match r.timelockExpiresAt with
  | some t => t ≠ 0 && now ≥ t
  | none => false

/-- `RecoveryManager.updateRequestStatus`: the lazy, time-driven status
projection. -/
def updateRequestStatus (now : ℕ) (r : RecoveryRequest) : RecoveryRequest :=
  if r.expiresAt < now ∧ r.status ≠ .executed then
    { r with status := .expired }
  else if r.status = .approved ∧ timelockPassed now r then
    { r with status := .ready }
  else r

/-- `RecoveryManager.addApproval`.  Returns the result together with the
updated map (the lazy status update performed by `validateRequestStatus`
persists even when the call then throws). -/
def addApproval (now : ℕ) (requestId : String) (approval : GuardianApprovalInput)
    (m : List RecoveryRequest) : Except String RecoveryRequest × List RecoveryRequest :=
  match findReq m requestId with
  | none => (.error "Recovery request not found", m)
  | some r0 =>
    let r1 := updateRequestStatus now r0
    if ¬ (r1.status = .pending ∨ r1.status = .approved) then
      (.error "Invalid request status", setReq m r1)
    else if r1.approvals.any (fun a => a.guardianId = approval.guardianId) then
      (.error "Guardian has already approved this request", setReq m r1)
    else
      let r2 := { r1 with approvals := r1.approvals ++
        [{ guardianId := approval.guardianId, shareIndex := approval.shareIndex,
           shareValue := approval.shareValue, approvedAt := now,
           signature := approval.signature }] }
      let r3 :=
        if r2.threshold ≤ r2.approvals.length ∧ r2.status = .pending then
          { r2 with status := .approved, approvedAt := some now,
                    timelockExpiresAt := some (now + r2.timelockMs) }
        else r2
      (.ok r3, setReq m r3)

/-- `RecoveryManager.executeRecovery`: combine the approval shares and mark
the request executed. -/
def executeRecovery (now : ℕ) (requestId : String)
    (m : List RecoveryRequest) : Except String String × List RecoveryRequest :=
  match findReq m requestId with
  | none => (.error "Recovery request not found", m)
  | some r0 =>
    let r1 := updateRequestStatus now r0
    if r1.status ≠ .ready then
      (.error "Invalid request status", setReq m r1)
    else
      let shares := r1.approvals.map (fun a => Shamir.Share.mk a.shareIndex a.shareValue)
      match Shamir.combineShares shares with
      | .error e => (.error e, setReq m r1)
      | .ok recoveredSecret =>
        let r2 := { r1 with status := .executed, executedAt := some now,
                            recoveredSecret := some recoveredSecret }
        (.ok recoveredSecret, setReq m r2)

/-- `RecoveryManager.cancelRecovery`: cancel and wipe the collected share
values. -/
def cancelRecovery (now : ℕ) (requestId : String)
    (m : List RecoveryRequest) : Except String Unit × List RecoveryRequest :=
  match findReq m requestId with
  | none => (.error "Recovery request not found", m)
  | some r0 =>
    let r1 := updateRequestStatus now r0
    if ¬ (r1.status = .pending ∨ r1.status = .approved ∨ r1.status = .ready) then
      (.error "Invalid request status", setReq m r1)
    else
      let r2 := { r1 with status := .cancelled,
                          approvals := r1.approvals.map (fun a => { a with shareValue := "" }) }
      (.ok (), setReq m r2)

/-- `RecoveryManager.getRequest`: a status-updating read. -/
def getRequest (now : ℕ) (requestId : String)
    (m : List RecoveryRequest) : Option RecoveryRequest × List RecoveryRequest :=
  match findReq m requestId with
  | none => (none, m)
  | some r0 =>
    let r1 := updateRequestStatus now r0
    (some r1, setReq m r1)

/-- `RecoveryManager.isReadyForExecution`. -/
def isReadyForExecution (now : ℕ) (requestId : String)
    (m : List RecoveryRequest) : Bool × List RecoveryRequest :=
  match findReq m requestId with
  | none => (false, m)
  | some r0 =>
    let r1 := updateRequestStatus now r0
    (r1.status = .ready, setReq m r1)

/-- `RecoveryManager.getPendingRequest`: scan the map in insertion order,
updating each visited request, and return the first non-terminal request
for the wallet.  Requests after the returned one are not visited. -/
def getPendingRequestGo (now : ℕ) (walletAddress : String) :
    List RecoveryRequest → Option RecoveryRequest × List RecoveryRequest
  | [] => (none, [])
  | r :: rest =>
    let r' := updateRequestStatus now r
    if r'.walletAddress = walletAddress ∧
        (r'.status = .pending ∨ r'.status = .approved ∨ r'.status = .ready) then
      (some r', r' :: rest)
    else
      let res := getPendingRequestGo now walletAddress rest
      (res.1, r' :: res.2)

/-- `RecoveryManager.getPendingRequest` on the whole map. -/
def getPendingRequest (now : ℕ) (walletAddress : String)
    (m : List RecoveryRequest) : Option RecoveryRequest × List RecoveryRequest :=
  getPendingRequestGo now walletAddress m

/-- The operations of the recovery coordinator named by the terminality
claim: approvals, execution, cancellation, and the status-updating reads. -/
inductive Op where
  | addApproval (now : ℕ) (requestId : String) (approval : GuardianApprovalInput)
  | execute (now : ℕ) (requestId : String)
  | cancel (now : ℕ) (requestId : String)
  | getRequest (now : ℕ) (requestId : String)
  | getPendingRequest (now : ℕ) (walletAddress : String)
  | isReadyForExecution (now : ℕ) (requestId : String)

/-- State effect of one operation. -/
def applyOp : Op → List RecoveryRequest → List RecoveryRequest
  | .addApproval now id a, m => (addApproval now id a m).2
  | .execute now id, m => (executeRecovery now id m).2
  | .cancel now id, m => (cancelRecovery now id m).2
  | .getRequest now id, m => (getRequest now id m).2
  | .getPendingRequest now w, m => (getPendingRequest now w m).2
  | .isReadyForExecution now id, m => (isReadyForExecution now id m).2

/-- Status of the request stored under a given id. -/
def statusOf (m : List RecoveryRequest) (requestId : String) : Option RecoveryStatus :=
  (findReq m requestId).map (·.status)

end Recovery

namespace Hash

/-! Byte-level implementations of the two hash functions the sources rely
on: SHA-256 (`@noble/hashes/sha256`, used by `hashVerificationCode` in
`guardian.ts`) and Keccak-256 (`@noble/hashes/sha3`, used for message and
transaction hashing).  Words are `ℕ` reduced modulo `2^32` / `2^64`;
messages are lists of bytes. -/

/-- 32-bit truncation. -/
def w32 (n : ℕ) : ℕ := n % 2 ^ 32

/-- 32-bit right rotation. -/
def rotr32 (n x : ℕ) : ℕ := w32 ((x >>> n) ||| (x <<< (32 - n)))

/-- The SHA-256 round constants. -/
def sha256K : List ℕ :=
  [1116352408, 1899447441, 3049323471, 3921009573,
   961987163, 1508970993, 2453635748, 2870763221,
   3624381080, 310598401, 607225278, 1426881987,
   1925078388, 2162078206, 2614888103, 3248222580,
   3835390401, 4022224774, 264347078, 604807628,
   770255983, 1249150122, 1555081692, 1996064986,
   2554220882, 2821834349, 2952996808, 3210313671,
   3336571891, 3584528711, 113926993, 338241895,
   666307205, 773529912, 1294757372, 1396182291,
   1695183700, 1986661051, 2177026350, 2456956037,
   2730485921, 2820302411, 3259730800, 3345764771,
   3516065817, 3600352804, 4094571909, 275423344,
   430227734, 506948616, 659060556, 883997877,
   958139571, 1322822218, 1537002063, 1747873779,
   1955562222, 2024104815, 2227730452, 2361852424,
   2428436474, 2756734187, 3204031479, 3329325298]

/-- The SHA-256 initial state. -/
def sha256H0 : List ℕ :=
  [0x6a09e667, 0xbb67ae85, 0x3c6ef372, 0xa54ff53a, 0x510e527f, 0x9b05688c, 0x1f83d9ab, 0x5be0cd19]

/-- SHA-256 message padding: append `0x80`, zero bytes up to 56 mod 64,
then the bit length as 8 big-endian bytes. -/
def sha256Pad (msg : List ℕ) : List ℕ :=
  let L := msg.length
  let k := (120 - (L + 1) % 64) % 64
  let bitLen := 8 * L
  msg ++ [0x80] ++ List.replicate k 0 ++
    (List.range 8).map (fun i => bitLen >>> (8 * (7 - i)) % 256)

/-- Split a list into chunks of `k` elements (the fuel is the list length). -/
def chunksAux {α : Type} (k : ℕ) : ℕ → List α → List (List α)
  | 0, _ => []
  | _, [] => []
  | fuel + 1, l => l.take k :: chunksAux k fuel (l.drop k)

/-- Split a list into chunks of `k` elements. -/
def chunks {α : Type} (k : ℕ) (l : List α) : List (List α) :=
  chunksAux k l.length l

/-- Big-endian 32-bit words from bytes. -/
def bytesToWords32 (l : List ℕ) : List ℕ :=
  (chunks 4 l).map (fun c =>
    (c.getD 0 0 <<< 24) ||| (c.getD 1 0 <<< 16) ||| (c.getD 2 0 <<< 8) ||| c.getD 3 0)

/-- Extend 16 message words to the 64-entry SHA-256 message schedule. -/
def sha256Schedule (ws : List ℕ) : ℕ → List ℕ
  | 0 => ws
  | t + 1 =>
    let prev := sha256Schedule ws t
    if prev.length < 16 then prev
    else
      let w2 := prev.getD (prev.length - 2) 0
      let w7 := prev.getD (prev.length - 7) 0
      let w15 := prev.getD (prev.length - 15) 0
      let w16 := prev.getD (prev.length - 16) 0
      let s0 := rotr32 7 w15 ^^^ rotr32 18 w15 ^^^ (w15 >>> 3)
      let s1 := rotr32 17 w2 ^^^ rotr32 19 w2 ^^^ (w2 >>> 10)
      prev ++ [w32 (w16 + s0 + w7 + s1)]

/-- One SHA-256 compression round. -/
def sha256Round (st : ℕ × ℕ × ℕ × ℕ × ℕ × ℕ × ℕ × ℕ) (kw : ℕ × ℕ) :
    ℕ × ℕ × ℕ × ℕ × ℕ × ℕ × ℕ × ℕ :=
  let (a, b, c, d, e, f, g, h) := st
  let S1 := rotr32 6 e ^^^ rotr32 11 e ^^^ rotr32 25 e
  let ch := (e &&& f) ^^^ ((e ^^^ (2 ^ 32 - 1)) &&& g)
  let temp1 := w32 (h + S1 + ch + kw.1 + kw.2)
  let S0 := rotr32 2 a ^^^ rotr32 13 a ^^^ rotr32 22 a
  let maj := (a &&& b) ^^^ (a &&& c) ^^^ (b &&& c)
  let temp2 := w32 (S0 + maj)
  (w32 (temp1 + temp2), a, b, c, w32 (d + temp1), e, f, g)

/-- SHA-256 compression of one 64-byte block into the running state. -/
def sha256Block (h : List ℕ) (block : List ℕ) : List ℕ :=
  let ws := sha256Schedule (bytesToWords32 block) 48
  let init : ℕ × ℕ × ℕ × ℕ × ℕ × ℕ × ℕ × ℕ :=
    (h.getD 0 0, h.getD 1 0, h.getD 2 0, h.getD 3 0,
     h.getD 4 0, h.getD 5 0, h.getD 6 0, h.getD 7 0)
  let fin := (sha256K.zip ws).foldl sha256Round init
  let (a, b, c, d, e, f, g, hh) := fin
  [w32 (h.getD 0 0 + a), w32 (h.getD 1 0 + b), w32 (h.getD 2 0 + c), w32 (h.getD 3 0 + d),
   w32 (h.getD 4 0 + e), w32 (h.getD 5 0 + f), w32 (h.getD 6 0 + g), w32 (h.getD 7 0 + hh)]

/-- SHA-256 of a byte list, as 32 bytes. -/
def sha256 (msg : List ℕ) : List ℕ :=
  let final := (chunks 64 (sha256Pad msg)).foldl sha256Block sha256H0
  final.flatMap (fun word => (List.range 4).map (fun i => word >>> (8 * (3 - i)) % 256))

/-- 64-bit truncation. -/
def w64 (n : ℕ) : ℕ := n % 2 ^ 64

/-- 64-bit left rotation. -/
def rotl64 (n x : ℕ) : ℕ := w64 ((x <<< (n % 64)) ||| (x >>> (64 - n % 64)))

/-- Keccak-f[1600] round constants. -/
def keccakRC : List ℕ :=
  [1, 32898, 9223372036854808714,
   9223372039002292224, 32907, 2147483649,
   9223372039002292353, 9223372036854808585, 138,
   136, 2147516425, 2147483658,
   2147516555, 9223372036854775947, 9223372036854808713,
   9223372036854808579, 9223372036854808578, 9223372036854775936,
   32778, 9223372039002259466, 9223372039002292353,
   9223372036854808704, 2147483649, 9223372039002292232]

/-- Keccak rotation offsets, indexed `x + 5 * y`. -/
def keccakRot : List ℕ :=
  [[0, 1, 62, 28, 27],
   [36, 44, 6, 55, 20],
   [3, 10, 43, 25, 39],
   [41, 45, 15, 21, 8],
   [18, 2, 61, 56, 14]].flatten

/-- One Keccak-f round on the 25-lane state (lane `(x, y)` at `x + 5 * y`). -/
def keccakRound (st : List ℕ) (rc : ℕ) : List ℕ :=
  let A := fun x y => st.getD (x % 5 + 5 * (y % 5)) 0
  let C := (List.range 5).map (fun x => A x 0 ^^^ A x 1 ^^^ A x 2 ^^^ A x 3 ^^^ A x 4)
  let D := (List.range 5).map (fun x => C.getD ((x + 4) % 5) 0 ^^^ rotl64 1 (C.getD ((x + 1) % 5) 0))
  let theta := (List.range 25).map (fun i => st.getD i 0 ^^^ D.getD (i % 5) 0)
  -- rho and pi: B[y, 2x+3y] = rot(theta[x, y], r[x, y])
  let B := (List.range 25).map (fun i =>
    let x := i % 5
    let y := i / 5
    -- lane (x', y') with x' + 5 y' = i comes from (x0, y0) with x0 = (x + 3 y) % 5? invert:
    -- forward map sends (x0, y0) to (y0, (2 x0 + 3 y0) % 5); its inverse sends
    -- (x, y) to (x0, y0) = ((x + 3 * y) % 5, x)
    let x0 := (x + 3 * y) % 5
    let y0 := x
    rotl64 (keccakRot.getD (x0 % 5 + 5 * (y0 % 5)) 0) (theta.getD (x0 % 5 + 5 * (y0 % 5)) 0))
  let chi := (List.range 25).map (fun i =>
    let x := i % 5
    let y := i / 5
    B.getD i 0 ^^^ (((B.getD ((x + 1) % 5 + 5 * y) 0) ^^^ (2 ^ 64 - 1)) &&& B.getD ((x + 2) % 5 + 5 * y) 0))
  match chi with
  | a0 :: rest => (a0 ^^^ rc) :: rest
  | [] => []

/-- The Keccak-f[1600] permutation: 24 rounds. -/
def keccakF (st : List ℕ) : List ℕ :=
  keccakRC.foldl keccakRound st

/-- Keccak (pre-NIST) padding to the 136-byte rate: `0x01 … 0x80`. -/
def keccakPad (msg : List ℕ) : List ℕ :=
  let k := 136 - msg.length % 136
  if k = 1 then msg ++ [0x81]
  else msg ++ [0x01] ++ List.replicate (k - 2) 0 ++ [0x80]

/-- Little-endian 64-bit lanes from bytes. -/
def bytesToLanes (l : List ℕ) : List ℕ :=
  (chunks 8 l).map (fun c =>
    (c.getD 0 0) ||| (c.getD 1 0 <<< 8) ||| (c.getD 2 0 <<< 16) ||| (c.getD 3 0 <<< 24) |||
    (c.getD 4 0 <<< 32) ||| (c.getD 5 0 <<< 40) ||| (c.getD 6 0 <<< 48) ||| (c.getD 7 0 <<< 56))

/-- Absorb one 136-byte block into the state and permute. -/
def keccakAbsorb (st : List ℕ) (block : List ℕ) : List ℕ :=
  let lanes := bytesToLanes block
  keccakF ((List.range 25).map (fun i => st.getD i 0 ^^^ lanes.getD i 0))

/-- Keccak-256 of a byte list, as 32 bytes. -/
def keccak256 (msg : List ℕ) : List ℕ :=
  let final := (chunks 136 (keccakPad msg)).foldl keccakAbsorb (List.replicate 25 0)
  (final.take 4).flatMap (fun lane => (List.range 8).map (fun i => lane >>> (8 * i) % 256))

/-- Bytes-to-lower-hex, as done by
`Array.from(bytes).map(b => b.toString(16).padStart(2, '0')).join('')`. -/
def bytesToHexString (bytes : List ℕ) : String :=
  ⟨bytes.flatMap (fun b =>
    let h := Shamir.natToHexDigits b
    List.replicate (2 - h.length) '0' ++ h)⟩

end Hash

namespace MPC

/-- Threshold configuration (`ThresholdConfig` in `threshold-signature.ts`). -/
structure ThresholdConfig where
  totalShares : ℕ
  threshold : ℕ
deriving DecidableEq, Repr

/-- A key share for threshold signing (`KeyShare`). -/
structure KeyShare where
  index : ℕ
  share : String
  publicKey : String
  address : String
  keyId : String
  config : ThresholdConfig
deriving DecidableEq, Repr

/-- A stored envelope (`SerializedEncryptedPayload` from `@panoplia/core`),
base64 fields. -/
structure SerializedEncryptedPayload where
  ciphertext : String
  nonce : String
  salt : String
  version : ℕ
deriving DecidableEq, Repr

/-- An encrypted key share (`EncryptedKeyShare` in `mpc-wallet.ts`). -/
structure EncryptedKeyShare where
  index : ℕ
  encryptedShare : SerializedEncryptedPayload
  publicKey : String
  address : String
  keyId : String
  config : ThresholdConfig
  label : Option String := none
deriving DecidableEq, Repr

/-- A share holder record (`ShareHolder`). -/
structure ShareHolder where
  id : String
  name : String
  holderType : String
  shareIndex : ℕ
  contact : Option String := none
  createdAt : ℕ
deriving DecidableEq, Repr

/-- MPC wallet state (`MPCWalletState`). -/
structure MPCWalletState where
  keyId : String
  publicKey : String
  address : String
  config : ThresholdConfig
  shareHolders : List ShareHolder
  createdAt : ℕ
deriving DecidableEq, Repr

/-- The mutable fields of an `MPCWallet` instance: the loaded state and the
decrypted shares collected so far. -/
structure MPCWallet where
  state : Option MPCWalletState
  collectedShares : List KeyShare
deriving DecidableEq, Repr

/-- A freshly constructed `MPCWallet`. -/
def MPCWallet.new : MPCWallet := { state := none, collectedShares := [] }

/-- `hexToBytes` from `threshold-signature.ts` (strip `0x`, then read byte
pairs; a trailing odd nibble is dropped, as `Uint8Array(cleanHex.length / 2)`
does). -/
def hexToBytes (hex : String) : List ℕ :=
  let cs := hex.data
  let cleanHex := if cs.take 2 = ['0', 'x'] then cs.drop 2 else cs
  ((Hash.chunks 2 cleanHex).take (cleanHex.length / 2)).map
    (fun c => 16 * Shamir.hexCharVal (c.getD 0 '0') + Shamir.hexCharVal (c.getD 1 '0'))

/-- `MPCWallet.loadState`. -/
def loadState (_w : MPCWallet) (state : MPCWalletState) : MPCWallet :=
  { state := some state, collectedShares := [] }

/-- `MPCWallet.clearShares` (what the facade's `lock()` calls). -/
def clearShares (w : MPCWallet) : MPCWallet :=
  { w with collectedShares := [] }

/-- `MPCWallet.canSign`. -/
def canSign (w : MPCWallet) : Bool :=
  match w.state with
  | none => false
  | some st => st.config.threshold ≤ w.collectedShares.length

/-- `MPCWallet.addShare`.  The decryption of the envelope
(`decrypt(deserializePayload(…), password)`, scrypt + XSalsa20-Poly1305
from `@panoplia/core`) is abstracted as `decryptFn`; `none` models the
exception that the `try … catch` of the source turns into `false`. -/
def addShare (decryptFn : SerializedEncryptedPayload → String → Option String)
    (w : MPCWallet) (encryptedShare : EncryptedKeyShare) (password : String) :
    Except String (Bool × MPCWallet) :=
  match w.state with
  | none => .error "Wallet state not loaded"
  | some st =>
    if encryptedShare.keyId ≠ st.keyId then
      .error "Share does not belong to this wallet"
    else if w.collectedShares.any (fun s => s.index = encryptedShare.index) then
      .ok (false, w)
    else
      match decryptFn encryptedShare.encryptedShare password with
      | none => .ok (false, w)
      | some shareValue =>
        let keyShare : KeyShare :=
          { index := encryptedShare.index, share := shareValue,
            publicKey := encryptedShare.publicKey, address := encryptedShare.address,
            keyId := encryptedShare.keyId, config := encryptedShare.config }
        .ok (true, { w with collectedShares := w.collectedShares ++ [keyShare] })

/-- Result of `signWithShares` (`{ r, s, v, signature }`). -/
structure SigResult where
  r : String
  s : String
  v : ℕ
  signature : String
deriving DecidableEq, Repr

/-- `signWithShares` from `threshold-signature.ts`.  The ECDSA primitive
(`secp256k1.signAsync` with low-S) is abstracted as `ecdsaSign`, returning
the signature scalars `(r, s)` and the recovery bit for a given 32-byte
hash and private key. -/
def signWithShares (ecdsaSign : List ℕ → String → ℕ × ℕ × ℕ)
    (messageHash : List ℕ) (shares : List KeyShare) : Except String SigResult :=
  if shares.length < 2 then .error "Need at least 2 shares to sign"
  else
    match shares with
    | [] => .error "Need at least 2 shares to sign"
    | s0 :: _ =>
      if shares.length < s0.config.threshold then
        .error "Not enough shares for the threshold"
      else if ¬ shares.all (fun s => s.keyId = s0.keyId) then
        .error "All shares must belong to the same key"
      else
        match Shamir.combineShares (shares.map fun s => ⟨s.index, s.share⟩) with
        | .error e => .error e
        | .ok privateKey =>
          if messageHash.length ≠ 32 then .error "Message hash must be 32 bytes"
          else
            let rsv := ecdsaSign messageHash privateKey
            let rHex := (Shamir.bigIntToHex rsv.1).data
            let sHex := (Shamir.bigIntToHex rsv.2.1).data
            let v := 27 + rsv.2.2
            .ok { r := ⟨'0' :: 'x' :: rHex⟩, s := ⟨'0' :: 'x' :: sHex⟩, v := v,
                  signature := ⟨'0' :: 'x' :: (rHex ++ sHex ++ Shamir.natToHexDigits v)⟩ }

/-- `signPersonalMessage` (EIP-191 framing then Keccak-256), for a message
already given as bytes (a string message is UTF-8 encoded upstream). -/
def signPersonalMessage (ecdsaSign : List ℕ → String → ℕ × ℕ × ℕ)
    (message : List ℕ) (shares : List KeyShare) : Except String String :=
  let prefixStr := "Ethereum Signed Message:\n" ++ toString message.length
  let fullMessage := (0x19 :: prefixStr.data.map Char.toNat) ++ message
  (signWithShares ecdsaSign (Hash.keccak256 fullMessage) shares).map (·.signature)

/-- `MPCWallet.signHash`: threshold check, then sign with the collected
shares.  The collected shares are returned unchanged alongside the
signature, exactly as the method leaves `this.collectedShares` untouched. -/
def signHash (ecdsaSign : List ℕ → String → ℕ × ℕ × ℕ)
    (w : MPCWallet) (messageHash : List ℕ) : Except String (String × MPCWallet) :=
  if ¬ canSign w then .error "Not enough shares collected"
  else (signWithShares ecdsaSign messageHash w.collectedShares).map
    (fun sig => (sig.signature, w))

/-- `MPCWallet.signMessage` (EIP-191). -/
def signMessage (ecdsaSign : List ℕ → String → ℕ × ℕ × ℕ)
    (w : MPCWallet) (message : List ℕ) : Except String (String × MPCWallet) :=
  if ¬ canSign w then .error "Not enough shares collected"
  else (signPersonalMessage ecdsaSign message w.collectedShares).map (fun sig => (sig, w))

/-- Transaction fields (`signTransaction`'s `txData`; the `to` field is
named `toAddr` because `to` is reserved). -/
structure TxData where
  nonce : ℕ
  gasPrice : Option ℕ := none
  gasLimit : ℕ
  toAddr : String
  value : ℕ
  data : String
  chainId : ℕ
deriving DecidableEq, Repr

/-- `rlpEncodeBigInt` from `threshold-signature.ts`. -/
def rlpEncodeBigInt (n : ℕ) : List ℕ :=
  if n = 0 then [0x80]
  else
    let hex := Shamir.natToHexDigits n
    let hex := if hex.length % 2 = 1 then '0' :: hex else hex
    let bytes := ((Hash.chunks 2 hex).take (hex.length / 2)).map
      (fun c => 16 * Shamir.hexCharVal (c.getD 0 '0') + Shamir.hexCharVal (c.getD 1 '0'))
    if bytes.length = 1 ∧ bytes.getD 0 0 < 0x80 then bytes
    else (0x80 + bytes.length) :: bytes

/-- `rlpEncodeNumber`. -/
def rlpEncodeNumber (n : ℕ) : List ℕ :=
  if n = 0 then [0x80] else rlpEncodeBigInt n

/-- `rlpEncodeList`. -/
def rlpEncodeList (items : List (List ℕ)) : List ℕ :=
  let content := items.flatten
  if content.length < 56 then (0xc0 + content.length) :: content
  else
    let lenBytes := rlpEncodeBigInt content.length
    (0xf7 + lenBytes.length) :: (lenBytes ++ content)

/-- `encodeTransaction`: the EIP-155 signing payload. -/
def encodeTransaction (tx : TxData) : List ℕ :=
  rlpEncodeList
    [rlpEncodeNumber tx.nonce,
     rlpEncodeBigInt (tx.gasPrice.getD 0),
     rlpEncodeBigInt tx.gasLimit,
     hexToBytes tx.toAddr,
     rlpEncodeBigInt tx.value,
     hexToBytes (if tx.data = "" then "0x" else tx.data),
     rlpEncodeNumber tx.chainId,
     [0x80], [0x80]]

/-- `encodeSignedTransaction`. -/
def encodeSignedTransaction (tx : TxData) (r s : String) (v : ℕ) : String :=
  let items :=
    [rlpEncodeNumber tx.nonce,
     rlpEncodeBigInt (tx.gasPrice.getD 0),
     rlpEncodeBigInt tx.gasLimit,
     hexToBytes tx.toAddr,
     rlpEncodeBigInt tx.value,
     hexToBytes (if tx.data = "" then "0x" else tx.data),
     rlpEncodeNumber v,
     hexToBytes r,
     hexToBytes s]
  ⟨'0' :: 'x' :: (Hash.bytesToHexString (rlpEncodeList items)).data⟩

/-- `MPCWallet.signTransaction`: hash the RLP payload, sign, re-encode with
the EIP-155 `v`.  As in the source, the wallet state is not modified. -/
def signTransaction (ecdsaSign : List ℕ → String → ℕ × ℕ × ℕ)
    (w : MPCWallet) (tx : TxData) : Except String (String × MPCWallet) :=
  if ¬ canSign w then .error "Not enough shares collected"
  else
    let txHash := Hash.keccak256 (encodeTransaction tx)
    match signWithShares ecdsaSign txHash w.collectedShares with
    | .error e => .error e
    | .ok sig =>
      let eip155V := tx.chainId * 2 + 35 + (sig.v - 27)
      .ok (encodeSignedTransaction tx sig.r sig.s eip155V, w)

end MPC

namespace Guardians

/-- Guardian status (`GuardianStatus` in `guardian.ts`). -/
inductive GuardianStatus where
  | pending
  | accepted
  | declined
  | revoked
deriving DecidableEq, Repr

/-- Contact type of a guardian. -/
inductive ContactType where
  | email
  | phone
  | wallet
  | other
deriving DecidableEq, Repr

/-- Guardian information (`Guardian` in `guardian.ts`). -/
structure Guardian where
  id : String
  name : String
  contact : String
  contactType : ContactType
  shareIndex : ℕ
  status : GuardianStatus
  addedAt : ℕ
  acceptedAt : Option ℕ := none
  publicKey : Option String := none
  verificationHash : Option String := none
deriving DecidableEq, Repr

/-- Guardian invite (`GuardianInvite`). -/
structure GuardianInvite where
  id : String
  guardianId : String
  walletAddress : String
  ownerName : String
  threshold : ℕ
  totalGuardians : ℕ
  encryptedShare : String
  verificationCode : String
  expiresAt : ℕ
  createdAt : ℕ
deriving DecidableEq, Repr

/-- Guardian response to an invite (`GuardianResponse`). -/
structure GuardianResponse where
  inviteId : String
  guardianId : String
  accepted : Bool
  publicKey : Option String := none
  verificationCode : String
  respondedAt : ℕ
deriving DecidableEq, Repr

/-- Decimal digits of `n` (fuel-based, most significant first). -/
def toDecAux : ℕ → ℕ → List Char
  | 0, _ => []
  | fuel + 1, n =>
    if n = 0 then [] else toDecAux fuel (n / 10) ++ [Char.ofNat ('0'.toNat + n % 10)]

/-- JavaScript `n.toString()` for a non-negative integer. -/
def natToDecDigits (n : ℕ) : List Char :=
  if n = 0 then ['0'] else toDecAux (n + 1) n

/-- `generateVerificationCode` from `guardian.ts`: combine 4 random bytes
into a signed 32-bit integer (the `|` of shifted bytes), take
`Math.abs(num) % 1000000`, and pad the decimal representation to 6 digits. -/
def generateVerificationCode (bytes : List ℕ) : String :=
  let b := fun i => bytes.getD i 0
  let u := ((b 0) <<< 24) ||| ((b 1) <<< 16) ||| ((b 2) <<< 8) ||| b 3
  let numAbs := if u < 2 ^ 31 then u else 2 ^ 32 - u
  let code := natToDecDigits (numAbs % 1000000)
  ⟨List.replicate (6 - code.length) '0' ++ code⟩

/-- `hashVerificationCode` from `guardian.ts`: SHA-256 of the UTF-8 bytes
of the code, as lower-case hex.  (Verification codes are ASCII digits, so
UTF-8 encoding is the identity on char codes.) -/
def hashVerificationCode (code : String) : String :=
  Hash.bytesToHexString (Hash.sha256 (code.data.map Char.toNat))

/-- The mutable state of a `GuardianManager`: the guardian map and the
pending-invite map (both keyed by id, in insertion order). -/
structure GuardianManagerState where
  guardians : List Guardian
  pendingInvites : List GuardianInvite
deriving DecidableEq, Repr

/-- `GuardianManager.createInvite`.  The generated invite id and the 4
random bytes for the verification code are passed in explicitly. -/
def createInvite (now : ℕ) (inviteId : String) (codeBytes : List ℕ)
    (guardianId walletAddress ownerName : String) (threshold totalGuardians : ℕ)
    (encryptedShare : String) (expirationDays : Option ℕ)
    (st : GuardianManagerState) :
    Except String (GuardianInvite × GuardianManagerState) :=
  match st.guardians.find? (fun g => g.id = guardianId) with
  | none => .error "Guardian not found"
  | some guardian =>
    let verificationCode := generateVerificationCode codeBytes
    let guardian' := { guardian with
      verificationHash := some (hashVerificationCode verificationCode) }
    let invite : GuardianInvite :=
      { id := inviteId, guardianId := guardianId, walletAddress := walletAddress,
        ownerName := ownerName, threshold := threshold, totalGuardians := totalGuardians,
        encryptedShare := encryptedShare, verificationCode := verificationCode,
        expiresAt := now + (expirationDays.getD 7) * 24 * 60 * 60 * 1000,
        createdAt := now }
    .ok (invite,
      { guardians := st.guardians.map (fun g => if g.id = guardianId then guardian' else g),
        pendingInvites := st.pendingInvites ++ [invite] })

/-- `GuardianManager.processResponse`.  Returns the result together with
the updated state (the invite deletion on expiry persists even though the
call throws). -/
def processResponse (now : ℕ) (response : GuardianResponse)
    (st : GuardianManagerState) : Except String Bool × GuardianManagerState :=
  match st.pendingInvites.find? (fun i => i.id = response.inviteId) with
  | none => (.error "Invite not found", st)
  | some invite =>
    if invite.expiresAt < now then
      (.error "Invite has expired",
       { st with pendingInvites := st.pendingInvites.filter (fun i => ¬ i.id = invite.id) })
    else
      match st.guardians.find? (fun g => g.id = response.guardianId) with
      | none => (.error "Guardian not found", st)
      | some guardian =>
        let providedHash := hashVerificationCode response.verificationCode
        if some providedHash ≠ guardian.verificationHash then
          (.error "Invalid verification code", st)
        else
          let guardian' :=
            if response.accepted then
              { guardian with
                  status := .accepted, acceptedAt := some now,
                  publicKey := (match response.publicKey with
                    | some pk => if pk = "" then guardian.publicKey else some pk
                    | none => guardian.publicKey) }
            else { guardian with status := .declined }
          (.ok response.accepted,
           { guardians := st.guardians.map (fun g => if g.id = guardian.id then guardian' else g),
             pendingInvites := st.pendingInvites.filter (fun i => ¬ i.id = invite.id) })

end Guardians

namespace SocialRecovery

/-- Social recovery configuration (`SocialRecoveryConfig` in
`social-recovery-wallet.ts`). -/
structure SocialRecoveryConfig where
  totalShares : ℕ
  threshold : ℕ
  ownerShares : ℕ
  timelockHours : ℕ
  expirationDays : ℕ
deriving DecidableEq, Repr

/-- `SocialRecoveryWallet.validateConfig`, run by the constructor.  The
subtraction `totalShares - ownerShares` is on JavaScript numbers and can
go negative, so it is taken in `ℤ`. -/
def validateConfig (c : SocialRecoveryConfig) : Except String Unit :=
  if c.threshold < 2 then .error "Threshold must be at least 2"
  else if c.ownerShares < 1 then .error "Owner must have at least 1 share"
  else if ((c.totalShares : ℤ) - (c.ownerShares : ℤ)) < ((c.threshold : ℤ) - (c.ownerShares : ℤ)) then
    .error "Not enough guardian shares for recovery without owner"
  else if c.totalShares < c.threshold then .error "Threshold cannot exceed total shares"
  else .ok ()

end SocialRecovery

/-! ## Theorems -/

/-- **C5, counterexample.**  The facade's configuration validation accepts
`{ totalShares := 2, threshold := 2, ownerShares := 2 }` even though
`ownerShares > totalShares − 1`: no check of the
`ownerShares ≤ totalShares − 1` constraint exists in `validateConfig`. -/
theorem validateConfig_accepts_ownerShares_eq_totalShares :
    SocialRecovery.validateConfig
      { totalShares := 2, threshold := 2, ownerShares := 2,
        timelockHours := 48, expirationDays := 7 } = .ok () ∧
    ¬ ((2 : ℕ) ≤ 2 - 1) := by
  exact ⟨rfl, by omega⟩

/-- **C5, amended.**  Constructing the social-recovery facade validates the
configuration against exactly three inequivalent constraints — `threshold ≥ 2`,
`ownerShares ≥ 1`, and `totalShares ≥ threshold` (the guardian-share check
`totalShares − ownerShares ≥ threshold − ownerShares` is equivalent to the
latter) — and fails for precisely the configurations violating one of them;
`ownerShares ≤ totalShares − 1` is not checked. -/
theorem validateConfig_ok_iff (c : SocialRecovery.SocialRecoveryConfig) :
    SocialRecovery.validateConfig c = .ok () ↔
      2 ≤ c.threshold ∧ 1 ≤ c.ownerShares ∧ c.threshold ≤ c.totalShares := by
  unfold SocialRecovery.validateConfig
  split_ifs with h1 h2 h3 h4 <;>
    simp <;> omega

/-- **C8, counterexample.**  The random scalar sampler does not reject zero:
the all-zero 32-byte input is reduced to the scalar 0. -/
theorem randomFieldElement_can_return_zero :
    Shamir.randomFieldElement (List.replicate 32 0) = 0 := by rfl

/-- **C8, amended.**  `randomFieldElement` reduces the 32 random bytes
modulo the group order `n` rather than rejection-sampling: every byte-list
input yields a value `< n`, but zero is not excluded. -/
theorem randomFieldElement_lt_PRIME (bytes : List ℕ) :
    Shamir.randomFieldElement bytes < Shamir.PRIME := by
  have h : 0 < Shamir.PRIME := by norm_num [Shamir.PRIME]
  exact Nat.mod_lt _ h

namespace Recovery

theorem updateRequestStatus_id (now : ℕ) (r : RecoveryRequest) :
    (updateRequestStatus now r).id = r.id := by
  unfold updateRequestStatus
  split_ifs <;> rfl

theorem updateRequestStatus_of_executed {now : ℕ} {r : RecoveryRequest}
    (h : r.status = .executed) : updateRequestStatus now r = r := by
  simp [updateRequestStatus, h]

theorem updateRequestStatus_status_of_expired {now : ℕ} {r : RecoveryRequest}
    (h : r.status = .expired) : (updateRequestStatus now r).status = .expired := by
  unfold updateRequestStatus
  split_ifs <;> simp_all

theorem updateRequestStatus_status_of_cancelled {now : ℕ} {r : RecoveryRequest}
    (h : r.status = .cancelled) :
    (updateRequestStatus now r).status = .cancelled ∨
      (updateRequestStatus now r).status = .expired := by
  unfold updateRequestStatus
  split_ifs <;> simp_all

/-- After the lazy update, a request whose stored status is terminal cannot
be in one of the three active statuses. -/
theorem updateRequestStatus_not_active {now : ℕ} {r : RecoveryRequest}
    (h : r.status = .executed ∨ r.status = .expired ∨ r.status = .cancelled) :
    ¬ ((updateRequestStatus now r).status = .pending ∨
       (updateRequestStatus now r).status = .approved ∨
       (updateRequestStatus now r).status = .ready) := by
  unfold updateRequestStatus
  split_ifs <;> rcases h with h | h | h <;> simp_all

theorem findReq_setReq (m : List RecoveryRequest) (r' : RecoveryRequest) (id : String) :
    findReq (setReq m r') id = (findReq m id).map (fun q => if q.id = r'.id then r' else q) := by
  induction m with
  | nil => rfl
  | cons q t ih =>
    unfold findReq setReq at *
    by_cases hq : q.id = id
    · by_cases hqr : q.id = r'.id
      · simp only [List.map_cons, if_pos hqr]
        rw [List.find?_cons_of_pos _ (by simp [← hqr, hq]),
            List.find?_cons_of_pos _ (by simp [hq])]
        simp [hqr]
      · simp only [List.map_cons, if_neg hqr]
        rw [List.find?_cons_of_pos _ (by simp [hq]),
            List.find?_cons_of_pos _ (by simp [hq])]
        simp [hqr]
    · by_cases hqr : q.id = r'.id
      · simp only [List.map_cons, if_pos hqr]
        rw [List.find?_cons_of_neg _ (by simp [← hqr, hq]),
            List.find?_cons_of_neg _ (by simp [hq])]
        exact ih
      · simp only [List.map_cons, if_neg hqr]
        rw [List.find?_cons_of_neg _ (by simp [hq]),
            List.find?_cons_of_neg _ (by simp [hq])]
        exact ih

theorem statusOf_setReq (m : List RecoveryRequest) (r' : RecoveryRequest) (id : String) :
    statusOf (setReq m r') id =
      (findReq m id).map (fun q => if q.id = r'.id then r'.status else q.status) := by
  unfold statusOf
  rw [findReq_setReq]
  rcases findReq m id with _ | q
  · rfl
  · by_cases hq : q.id = r'.id <;> simp [hq]

/-- The common state shape of the five keyed operations: either the id is
absent and the map is unchanged, or some request `rX` with the key's id is
written back; and when the lazily updated request is not active, `rX` is
exactly the lazily updated request. -/
def StateShape (now : ℕ) (rid : String) (m m' : List RecoveryRequest) : Prop :=
  (findReq m rid = none ∧ m' = m) ∨
  ∃ r0 rX, findReq m rid = some r0 ∧ m' = setReq m rX ∧ rX.id = r0.id ∧
    (¬ ((updateRequestStatus now r0).status = .pending ∨
        (updateRequestStatus now r0).status = .approved ∨
        (updateRequestStatus now r0).status = .ready) →
      rX = updateRequestStatus now r0)

theorem addApproval_shape (now : ℕ) (rid : String) (a : GuardianApprovalInput)
    (m : List RecoveryRequest) : StateShape now rid m (addApproval now rid a m).2 := by
  unfold addApproval StateShape
  rcases hf : findReq m rid with _ | r0
  · exact .inl ⟨rfl, rfl⟩
  · right
    dsimp only
    split_ifs with h1 h2 h3 <;>
      refine ⟨r0, _, rfl, rfl, updateRequestStatus_id now r0, fun hna => ?_⟩ <;>
      first
        | rfl
        | exact absurd (h1.imp id Or.inl) hna

theorem executeRecovery_shape (now : ℕ) (rid : String)
    (m : List RecoveryRequest) : StateShape now rid m (executeRecovery now rid m).2 := by
  unfold executeRecovery StateShape
  rcases hf : findReq m rid with _ | r0
  · exact .inl ⟨rfl, rfl⟩
  · right
    dsimp only
    split_ifs with h1
    · exact ⟨r0, _, rfl, rfl, updateRequestStatus_id now r0, fun _ => rfl⟩
    · split
      · exact ⟨r0, _, rfl, rfl, updateRequestStatus_id now r0, fun _ => rfl⟩
      · refine ⟨r0, _, rfl, rfl, updateRequestStatus_id now r0, fun hna => ?_⟩
        first
          | exact absurd (Or.inr (Or.inr h1)) hna
          | exact absurd (Or.inr (Or.inr (not_not.mp h1))) hna

theorem cancelRecovery_shape (now : ℕ) (rid : String)
    (m : List RecoveryRequest) : StateShape now rid m (cancelRecovery now rid m).2 := by
  unfold cancelRecovery StateShape
  rcases hf : findReq m rid with _ | r0
  · exact .inl ⟨rfl, rfl⟩
  · right
    dsimp only
    split_ifs with h1 <;>
      refine ⟨r0, _, rfl, rfl, updateRequestStatus_id now r0, fun hna => ?_⟩ <;>
      first
        | rfl
        | exact absurd h1 hna

theorem getRequest_shape (now : ℕ) (rid : String)
    (m : List RecoveryRequest) : StateShape now rid m (getRequest now rid m).2 := by
  unfold getRequest StateShape
  rcases hf : findReq m rid with _ | r0
  · exact .inl ⟨rfl, rfl⟩
  · exact .inr ⟨r0, _, rfl, rfl, updateRequestStatus_id now r0, fun _ => rfl⟩

theorem isReadyForExecution_shape (now : ℕ) (rid : String)
    (m : List RecoveryRequest) : StateShape now rid m (isReadyForExecution now rid m).2 := by
  unfold isReadyForExecution StateShape
  rcases hf : findReq m rid with _ | r0
  · exact .inl ⟨rfl, rfl⟩
  · exact .inr ⟨r0, _, rfl, rfl, updateRequestStatus_id now r0, fun _ => rfl⟩

/-- Core terminality argument for any operation with the common shape. -/
theorem stable_of_shape {now : ℕ} {rid id : String} {st : RecoveryStatus}
    {m m' : List RecoveryRequest}
    (hshape : StateShape now rid m m')
    (h : statusOf m id = some st)
    (hst : st = .executed ∨ st = .expired ∨ st = .cancelled) :
    statusOf m' id = some st ∨ (st = .cancelled ∧ statusOf m' id = some .expired) := by
  obtain ⟨q, hq, hqst⟩ : ∃ q, findReq m id = some q ∧ q.status = st := by
    unfold statusOf at h
    rcases hf : findReq m id with _ | q <;> rw [hf] at h <;> simp at h
    exact ⟨q, rfl, h⟩
  have hqid : q.id = id := by simpa using List.find?_some hq
  rcases hshape with ⟨_, hm⟩ | ⟨r0, rX, hf0, hm, hid, himp⟩
  · left; rw [hm]; unfold statusOf; rw [hq]; simp [hqst]
  · have hr0id : r0.id = rid := by simpa using List.find?_some hf0
    rw [hm, statusOf_setReq, hq]
    by_cases hqr : q.id = rX.id
    · have hidr : id = rid := by rw [← hqid, hqr, hid, hr0id]
      have hq0 : r0 = q := by
        rw [hidr] at hq
        rw [hq] at hf0
        exact (Option.some.inj hf0).symm
      have hterm : r0.status = .executed ∨ r0.status = .expired ∨ r0.status = .cancelled := by
        rw [hq0, hqst]; exact hst
      have hrx : rX = updateRequestStatus now r0 :=
        himp (updateRequestStatus_not_active hterm)
      simp only [Option.map_some']
      rw [if_pos hqr, hrx]
      rcases hst with h1 | h1 | h1
      · left
        rw [updateRequestStatus_of_executed (by rw [hq0, hqst, h1]), hq0, hqst]
      · left
        rw [updateRequestStatus_status_of_expired (by rw [hq0, hqst, h1]), h1]
      · rcases @updateRequestStatus_status_of_cancelled now r0 (by rw [hq0, hqst, h1])
            with h2 | h2
        · left; rw [h2, h1]
        · right; exact ⟨h1, by rw [h2]⟩
    · left
      simp only [Option.map_some']
      rw [if_neg hqr, hqst]

/-- Terminality along the `getPendingRequest` scan. -/
theorem getPendingGo_stable (now : ℕ) (w id : String) (st : RecoveryStatus)
    (l : List RecoveryRequest)
    (h : statusOf l id = some st)
    (hst : st = .executed ∨ st = .expired ∨ st = .cancelled) :
    statusOf (getPendingRequestGo now w l).2 id = some st ∨
      (st = .cancelled ∧ statusOf (getPendingRequestGo now w l).2 id = some .expired) := by
  induction l with
  | nil => simp [statusOf, findReq] at h
  | cons r t ih =>
    have hrid : (updateRequestStatus now r).id = r.id := updateRequestStatus_id now r
    by_cases hr : r.id = id
    · have hrst : r.status = st := by
        unfold statusOf findReq at h
        rw [List.find?_cons_of_pos _ (by simp [hr])] at h
        simpa using h
      have hstat : ∀ rest : List RecoveryRequest,
          statusOf (updateRequestStatus now r :: rest) id =
            some (updateRequestStatus now r).status := by
        intro rest
        unfold statusOf findReq
        rw [List.find?_cons_of_pos _ (by simp [hrid, hr])]
        rfl
      have hgoal : ∀ rest : List RecoveryRequest,
          statusOf (updateRequestStatus now r :: rest) id = some st ∨
            (st = .cancelled ∧
              statusOf (updateRequestStatus now r :: rest) id = some .expired) := by
        intro rest
        rcases hst with h1 | h1 | h1
        · left
          rw [hstat, updateRequestStatus_of_executed (by rw [hrst, h1]), hrst]
        · left
          rw [hstat, updateRequestStatus_status_of_expired (by rw [hrst, h1]), h1]
        · rcases @updateRequestStatus_status_of_cancelled now r (by rw [hrst, h1])
              with h2 | h2
          · left; rw [hstat, h2, h1]
          · right; exact ⟨h1, by rw [hstat, h2]⟩
      unfold getPendingRequestGo
      dsimp only
      split_ifs with hcond
      · exact hgoal t
      · exact hgoal (getPendingRequestGo now w t).2
    · have ht : statusOf t id = some st := by
        unfold statusOf findReq at h ⊢
        rwa [List.find?_cons_of_neg _ (by simp [hr])] at h
      have hskip : ∀ rest : List RecoveryRequest,
          statusOf (updateRequestStatus now r :: rest) id = statusOf rest id := by
        intro rest
        unfold statusOf findReq
        rw [List.find?_cons_of_neg _ (by simp [hrid, hr])]
      unfold getPendingRequestGo
      dsimp only
      split_ifs with hcond
      · left; rw [hskip]; exact ht
      · rcases ih ht with h2 | ⟨h2a, h2b⟩
        · left; rw [hskip]; exact h2
        · right; exact ⟨h2a, by rw [hskip]; exact h2b⟩

end Recovery

/-- **C2, counterexample.**  A cancelled request is not terminal against
the clock: the request below was cancelled (status `cancelled`) with
`expiresAt = 100`; the status-updating read `getRequest` at time 200
changes its stored status to `expired`, because `updateRequestStatus`
exempts only `executed` requests from the expiry transition. -/
theorem cancelled_request_expires_on_read :
    Recovery.statusOf
      [{ id := "r1", walletAddress := "w", keyId := "k", initiator := "o", reason := "lost",
         status := .cancelled, threshold := 3, approvals := [], timelockMs := 0,
         createdAt := 0, expiresAt := 100 }] "r1" = some .cancelled ∧
    Recovery.statusOf
      (Recovery.applyOp (.getRequest 200 "r1")
        [{ id := "r1", walletAddress := "w", keyId := "k", initiator := "o", reason := "lost",
           status := .cancelled, threshold := 3, approvals := [], timelockMs := 0,
           createdAt := 0, expiresAt := 100 }]) "r1" = some .expired :=
  ⟨rfl, rfl⟩

/-- **C2, amended.**  Once a recovery request's status is `executed` or
`expired`, no operation (add_approval, execute, cancel, or a
status-updating read such as get_request, get_pending_request or
is_ready_for_execution, at any clock reading) changes it.  Once the
status is `cancelled`, the only change any of these operations can make
is to `expired` (when the clock has passed `expiresAt`); in particular a
cancelled request never returns to pending, approved, ready, or executed. -/
theorem terminal_status_stable (op : Recovery.Op) (m : List Recovery.RecoveryRequest)
    (id : String) (st : Recovery.RecoveryStatus)
    (h : Recovery.statusOf m id = some st)
    (hst : st = .executed ∨ st = .expired ∨ st = .cancelled) :
    Recovery.statusOf (Recovery.applyOp op m) id = some st ∨
      (st = .cancelled ∧ Recovery.statusOf (Recovery.applyOp op m) id = some .expired) := by
  cases op with
  | addApproval now rid a =>
    exact Recovery.stable_of_shape (Recovery.addApproval_shape now rid a m) h hst
  | execute now rid =>
    exact Recovery.stable_of_shape (Recovery.executeRecovery_shape now rid m) h hst
  | cancel now rid =>
    exact Recovery.stable_of_shape (Recovery.cancelRecovery_shape now rid m) h hst
  | getRequest now rid =>
    exact Recovery.stable_of_shape (Recovery.getRequest_shape now rid m) h hst
  | getPendingRequest now w =>
    exact Recovery.getPendingGo_stable now w id st m h hst
  | isReadyForExecution now rid =>
    exact Recovery.stable_of_shape (Recovery.isReadyForExecution_shape now rid m) h hst

/-- Witness for `terminal_status_stable`: an executed request stays
executed across a status-updating read. -/
theorem terminal_status_stable_witness :
    Recovery.statusOf
      [{ id := "r1", walletAddress := "w", keyId := "k", initiator := "o", reason := "lost",
         status := .executed, threshold := 3, approvals := [], timelockMs := 0,
         createdAt := 0, expiresAt := 100 }] "r1" = some .executed ∧
    (Recovery.statusOf
        (Recovery.applyOp (.getRequest 500 "r1")
          [{ id := "r1", walletAddress := "w", keyId := "k", initiator := "o", reason := "lost",
             status := .executed, threshold := 3, approvals := [], timelockMs := 0,
             createdAt := 0, expiresAt := 100 }]) "r1" = some .executed ∨
      (Recovery.RecoveryStatus.executed = .cancelled ∧
        Recovery.statusOf
          (Recovery.applyOp (.getRequest 500 "r1")
            [{ id := "r1", walletAddress := "w", keyId := "k", initiator := "o", reason := "lost",
               status := .executed, threshold := 3, approvals := [], timelockMs := 0,
               createdAt := 0, expiresAt := 100 }]) "r1" = some .expired)) :=
  ⟨rfl, terminal_status_stable _ _ "r1" .executed rfl (Or.inl rfl)⟩

/-- **C9, confirmed.**  `cancelRecovery` on a stored request succeeds
exactly when the lazily updated status is `pending`, `approved` or
`ready` (failing with the invalid-state error otherwise), and on success
it sets the status to `cancelled` and blanks every collected
`shareValue`. -/
theorem cancelRecovery_spec (now : ℕ) (rid : String) (m : List Recovery.RecoveryRequest)
    (r0 : Recovery.RecoveryRequest)
    (hfind : Recovery.findReq m rid = some r0) :
    (((Recovery.updateRequestStatus now r0).status = .pending ∨
      (Recovery.updateRequestStatus now r0).status = .approved ∨
      (Recovery.updateRequestStatus now r0).status = .ready) →
        (Recovery.cancelRecovery now rid m).1 = .ok () ∧
        Recovery.statusOf (Recovery.cancelRecovery now rid m).2 rid = some .cancelled ∧
        ∀ r' ∈ (Recovery.cancelRecovery now rid m).2, r'.id = rid →
          ∀ a ∈ r'.approvals, a.shareValue = "") ∧
    (¬ ((Recovery.updateRequestStatus now r0).status = .pending ∨
        (Recovery.updateRequestStatus now r0).status = .approved ∨
        (Recovery.updateRequestStatus now r0).status = .ready) →
      (Recovery.cancelRecovery now rid m).1 = .error "Invalid request status") := by
  have hr0id : r0.id = rid := by simpa using List.find?_some hfind
  unfold Recovery.cancelRecovery
  rw [hfind]
  dsimp only
  split_ifs with h1
  · -- h1 : the updated status is active; success branch
    refine ⟨fun _ => ⟨rfl, ?_, ?_⟩, fun hna => absurd h1 hna⟩
    · rw [Recovery.statusOf_setReq, hfind]
      simp [Recovery.updateRequestStatus_id]
    · intro r' hr' hid a ha
      obtain ⟨q, hq, hfq⟩ := List.mem_map.mp hr'
      by_cases hcase : q.id =
          (Recovery.updateRequestStatus now r0).id
      · rw [if_pos hcase] at hfq
        rw [← hfq] at ha
        obtain ⟨b, _, hb⟩ := List.mem_map.mp ha
        rw [← hb]
      · rw [if_neg hcase] at hfq
        rw [← hfq] at hid
        rw [Recovery.updateRequestStatus_id, hr0id] at hcase
        exact absurd hid hcase
  · -- invalid-state branch
    exact ⟨fun hact => absurd hact (by tauto), fun _ => rfl⟩

/-- Witness for `cancelRecovery_spec`: cancelling a pending request with
one collected approval succeeds, cancels, and blanks the share value. -/
theorem cancelRecovery_spec_witness :
    (Recovery.cancelRecovery 50 "r1"
        [{ id := "r1", walletAddress := "w", keyId := "k", initiator := "o", reason := "lost",
           status := .pending, threshold := 3,
           approvals := [{ guardianId := "g1", shareIndex := 1, shareValue := "aa",
                           approvedAt := 10 }],
           timelockMs := 0, createdAt := 0, expiresAt := 1000 }]).1 = .ok () ∧
    Recovery.statusOf
      (Recovery.cancelRecovery 50 "r1"
        [{ id := "r1", walletAddress := "w", keyId := "k", initiator := "o", reason := "lost",
           status := .pending, threshold := 3,
           approvals := [{ guardianId := "g1", shareIndex := 1, shareValue := "aa",
                           approvedAt := 10 }],
           timelockMs := 0, createdAt := 0, expiresAt := 1000 }]).2 "r1" = some .cancelled ∧
    ∀ r' ∈ (Recovery.cancelRecovery 50 "r1"
        [{ id := "r1", walletAddress := "w", keyId := "k", initiator := "o", reason := "lost",
           status := .pending, threshold := 3,
           approvals := [{ guardianId := "g1", shareIndex := 1, shareValue := "aa",
                           approvedAt := 10 }],
           timelockMs := 0, createdAt := 0, expiresAt := 1000 }]).2, r'.id = "r1" →
      ∀ a ∈ r'.approvals, a.shareValue = "" :=
  (cancelRecovery_spec 50 "r1"
      [{ id := "r1", walletAddress := "w", keyId := "k", initiator := "o", reason := "lost",
         status := .pending, threshold := 3,
         approvals := [{ guardianId := "g1", shareIndex := 1, shareValue := "aa",
                         approvedAt := 10 }],
         timelockMs := 0, createdAt := 0, expiresAt := 1000 }]
      { id := "r1", walletAddress := "w", keyId := "k", initiator := "o", reason := "lost",
        status := .pending, threshold := 3,
        approvals := [{ guardianId := "g1", shareIndex := 1, shareValue := "aa",
                        approvedAt := 10 }],
        timelockMs := 0, createdAt := 0, expiresAt := 1000 }
      rfl).1 (Or.inl rfl)

/-- **C10, confirmed.**  The expiry check short-circuits the lazy status
update: a stored request past `expiresAt` and not yet executed is seen as
`expired` by every status-updating read — even if it is `approved` with an
elapsed timelock it never becomes `ready` — and subsequent `addApproval`
or `executeRecovery` calls fail with the invalid-state error. -/
theorem expiration_takes_precedence (now : ℕ) (rid : String)
    (m : List Recovery.RecoveryRequest) (r0 : Recovery.RecoveryRequest)
    (a : Recovery.GuardianApprovalInput)
    (hfind : Recovery.findReq m rid = some r0)
    (hexp : r0.expiresAt < now) (hne : r0.status ≠ .executed) :
    (Recovery.updateRequestStatus now r0).status = .expired ∧
    ((Recovery.getRequest now rid m).1.map (·.status) = some .expired) ∧
    (Recovery.isReadyForExecution now rid m).1 = false ∧
    (Recovery.addApproval now rid a m).1 = .error "Invalid request status" ∧
    (Recovery.executeRecovery now rid m).1 = .error "Invalid request status" := by
  have hupd : Recovery.updateRequestStatus now r0 = { r0 with status := .expired } := by
    unfold Recovery.updateRequestStatus
    rw [if_pos ⟨hexp, hne⟩]
  refine ⟨by rw [hupd], ?_, ?_, ?_, ?_⟩
  · unfold Recovery.getRequest
    rw [hfind]
    dsimp only
    rw [hupd]
    rfl
  · unfold Recovery.isReadyForExecution
    rw [hfind]
    dsimp only
    rw [hupd]
    rfl
  · unfold Recovery.addApproval
    rw [hfind]
    dsimp only
    rw [if_pos (by rw [hupd]; simp)]
  · unfold Recovery.executeRecovery
    rw [hfind]
    dsimp only
    rw [if_pos (by rw [hupd]; simp)]

/-- Witness for `expiration_takes_precedence`: a request that is approved
with an already-elapsed timelock but past its expiry is read as expired
and can no longer be approved or executed. -/
theorem expiration_takes_precedence_witness :
    (Recovery.updateRequestStatus 200
      { id := "r1", walletAddress := "w", keyId := "k", initiator := "o", reason := "lost",
        status := .approved, threshold := 1,
        approvals := [{ guardianId := "g1", shareIndex := 1, shareValue := "aa",
                        approvedAt := 10 }],
        timelockMs := 10, createdAt := 0, approvedAt := some 40,
        timelockExpiresAt := some 50, expiresAt := 100 }).status = .expired ∧
    ((Recovery.getRequest 200 "r1"
        [{ id := "r1", walletAddress := "w", keyId := "k", initiator := "o", reason := "lost",
           status := .approved, threshold := 1,
           approvals := [{ guardianId := "g1", shareIndex := 1, shareValue := "aa",
                           approvedAt := 10 }],
           timelockMs := 10, createdAt := 0, approvedAt := some 40,
           timelockExpiresAt := some 50, expiresAt := 100 }]).1.map (·.status) = some .expired) ∧
    (Recovery.isReadyForExecution 200 "r1"
        [{ id := "r1", walletAddress := "w", keyId := "k", initiator := "o", reason := "lost",
           status := .approved, threshold := 1,
           approvals := [{ guardianId := "g1", shareIndex := 1, shareValue := "aa",
                           approvedAt := 10 }],
           timelockMs := 10, createdAt := 0, approvedAt := some 40,
           timelockExpiresAt := some 50, expiresAt := 100 }]).1 = false ∧
    (Recovery.addApproval 200 "r1"
        { guardianId := "g2", shareIndex := 2, shareValue := "bb" }
        [{ id := "r1", walletAddress := "w", keyId := "k", initiator := "o", reason := "lost",
           status := .approved, threshold := 1,
           approvals := [{ guardianId := "g1", shareIndex := 1, shareValue := "aa",
                           approvedAt := 10 }],
           timelockMs := 10, createdAt := 0, approvedAt := some 40,
           timelockExpiresAt := some 50, expiresAt := 100 }]).1 = .error "Invalid request status" ∧
    (Recovery.executeRecovery 200 "r1"
        [{ id := "r1", walletAddress := "w", keyId := "k", initiator := "o", reason := "lost",
           status := .approved, threshold := 1,
           approvals := [{ guardianId := "g1", shareIndex := 1, shareValue := "aa",
                           approvedAt := 10 }],
           timelockMs := 10, createdAt := 0, approvedAt := some 40,
           timelockExpiresAt := some 50, expiresAt := 100 }]).1 = .error "Invalid request status" :=
  expiration_takes_precedence 200 "r1" _ _
    { guardianId := "g2", shareIndex := 2, shareValue := "bb" }
    rfl (by decide) (by decide)

/-- **C3, counterexample.**  A successful `signHash` call does not clear
the collected shares: on a 2-of-3 wallet holding 2 decrypted shares the
call succeeds and the wallet still holds both shares afterwards (the
method never touches `collectedShares`; only `clearShares`/`loadState`
empty it). -/
theorem signHash_does_not_clear_shares :
    (MPC.signHash (fun _ _ => (1, 1, 0))
      { state := some { keyId := "k", publicKey := "p", address := "a",
                        config := { totalShares := 3, threshold := 2 },
                        shareHolders := [], createdAt := 0 },
        collectedShares :=
          [{ index := 1,
             share := "0000000000000000000000000000000000000000000000000000000000000006",
             publicKey := "p", address := "a", keyId := "k",
             config := { totalShares := 3, threshold := 2 } },
           { index := 2,
             share := "000000000000000000000000000000000000000000000000000000000000000b",
             publicKey := "p", address := "a", keyId := "k",
             config := { totalShares := 3, threshold := 2 } }] }
      (List.replicate 32 0)).map (fun p => p.2.collectedShares.length) = .ok 2 := by
  rfl

/-- **C3, amended.**  None of the three signing entry points modifies
`collectedShares`: a successful `signHash`, `signMessage` or
`signTransaction` returns the wallet with its collected shares unchanged
(and in particular not emptied); the shares are cleared only by
`clearShares` (the facade's `lock()`) and by `loadState`. -/
theorem collectedShares_after_sign_and_lock
    (ecdsaSign : List ℕ → String → ℕ × ℕ × ℕ) (w : MPC.MPCWallet)
    (messageHash message : List ℕ) (tx : MPC.TxData) (st : MPC.MPCWalletState) :
    (∀ sig w', MPC.signHash ecdsaSign w messageHash = .ok (sig, w') →
        w'.collectedShares = w.collectedShares) ∧
    (∀ sig w', MPC.signMessage ecdsaSign w message = .ok (sig, w') →
        w'.collectedShares = w.collectedShares) ∧
    (∀ sig w', MPC.signTransaction ecdsaSign w tx = .ok (sig, w') →
        w'.collectedShares = w.collectedShares) ∧
    (MPC.clearShares w).collectedShares = [] ∧
    (MPC.loadState w st).collectedShares = [] := by
  refine ⟨?_, ?_, ?_, rfl, rfl⟩
  · intro sig w' h
    unfold MPC.signHash at h
    split_ifs at h
    rcases he : MPC.signWithShares ecdsaSign messageHash w.collectedShares with e | s <;>
      rw [he] at h <;> simp [Except.map] at h
    rw [← h.2]
  · intro sig w' h
    unfold MPC.signMessage at h
    split_ifs at h
    rcases he : MPC.signPersonalMessage ecdsaSign message w.collectedShares with e | s <;>
      rw [he] at h <;> simp [Except.map] at h
    rw [← h.2]
  · intro sig w' h
    unfold MPC.signTransaction at h
    split_ifs at h
    dsimp only at h
    rcases he : MPC.signWithShares ecdsaSign
        (Hash.keccak256 (MPC.encodeTransaction tx)) w.collectedShares with e | s <;>
      rw [he] at h <;> simp at h
    rw [← h.2]

/-- Witness for `collectedShares_after_sign_and_lock`: the concrete
successful `signHash` call of the counterexample returns the wallet with
its two shares intact. -/
theorem collectedShares_after_sign_witness :
    MPC.signHash (fun _ _ => (1, 1, 0))
      { state := some { keyId := "k", publicKey := "p", address := "a",
                        config := { totalShares := 3, threshold := 2 },
                        shareHolders := [], createdAt := 0 },
        collectedShares :=
          [{ index := 1,
             share := "0000000000000000000000000000000000000000000000000000000000000006",
             publicKey := "p", address := "a", keyId := "k",
             config := { totalShares := 3, threshold := 2 } },
           { index := 2,
             share := "000000000000000000000000000000000000000000000000000000000000000b",
             publicKey := "p", address := "a", keyId := "k",
             config := { totalShares := 3, threshold := 2 } }] }
      (List.replicate 32 0) =
      .ok ("0x000000000000000000000000000000000000000000000000000000000000000100000000000000000000000000000000000000000000000000000000000000011b",
        { state := some { keyId := "k", publicKey := "p", address := "a",
                          config := { totalShares := 3, threshold := 2 },
                          shareHolders := [], createdAt := 0 },
          collectedShares :=
            [{ index := 1,
               share := "0000000000000000000000000000000000000000000000000000000000000006",
               publicKey := "p", address := "a", keyId := "k",
               config := { totalShares := 3, threshold := 2 } },
             { index := 2,
               share := "000000000000000000000000000000000000000000000000000000000000000b",
               publicKey := "p", address := "a", keyId := "k",
               config := { totalShares := 3, threshold := 2 } }] }) ∧
    ([{ index := 1,
        share := "0000000000000000000000000000000000000000000000000000000000000006",
        publicKey := "p", address := "a", keyId := "k",
        config := { totalShares := 3, threshold := 2 } },
      { index := 2,
        share := "000000000000000000000000000000000000000000000000000000000000000b",
        publicKey := "p", address := "a", keyId := "k",
        config := { totalShares := 3, threshold := 2 } }] : List MPC.KeyShare) =
      [{ index := 1,
         share := "0000000000000000000000000000000000000000000000000000000000000006",
         publicKey := "p", address := "a", keyId := "k",
         config := { totalShares := 3, threshold := 2 } },
       { index := 2,
         share := "000000000000000000000000000000000000000000000000000000000000000b",
         publicKey := "p", address := "a", keyId := "k",
         config := { totalShares := 3, threshold := 2 } }] :=
  ⟨by rfl,
    (collectedShares_after_sign_and_lock (fun _ _ => (1, 1, 0))
        { state := some { keyId := "k", publicKey := "p", address := "a",
                          config := { totalShares := 3, threshold := 2 },
                          shareHolders := [], createdAt := 0 },
          collectedShares :=
            [{ index := 1,
               share := "0000000000000000000000000000000000000000000000000000000000000006",
               publicKey := "p", address := "a", keyId := "k",
               config := { totalShares := 3, threshold := 2 } },
             { index := 2,
               share := "000000000000000000000000000000000000000000000000000000000000000b",
               publicKey := "p", address := "a", keyId := "k",
               config := { totalShares := 3, threshold := 2 } }] }
        (List.replicate 32 0) (List.replicate 32 0)
        { nonce := 0, gasLimit := 0, toAddr := "", value := 0, data := "", chainId := 1 }
        { keyId := "k", publicKey := "p", address := "a",
          config := { totalShares := 3, threshold := 2 },
          shareHolders := [], createdAt := 0 }).1
      "0x000000000000000000000000000000000000000000000000000000000000000100000000000000000000000000000000000000000000000000000000000000011b"
      { state := some { keyId := "k", publicKey := "p", address := "a",
                        config := { totalShares := 3, threshold := 2 },
                        shareHolders := [], createdAt := 0 },
        collectedShares :=
          [{ index := 1,
             share := "0000000000000000000000000000000000000000000000000000000000000006",
             publicKey := "p", address := "a", keyId := "k",
             config := { totalShares := 3, threshold := 2 } },
           { index := 2,
             share := "000000000000000000000000000000000000000000000000000000000000000b",
             publicKey := "p", address := "a", keyId := "k",
             config := { totalShares := 3, threshold := 2 } }] }
      (by rfl)⟩

/-- **C6, counterexample.**  Adding a share whose index is already in
`collectedShares` does not fail with an `AlreadyCollected` error: the
call returns `false` without throwing (the decryption function is never
consulted). -/
theorem addShare_duplicate_index_returns_false :
    MPC.addShare (fun _ _ => some "irrelevant")
      { state := some { keyId := "k", publicKey := "p", address := "a",
                        config := { totalShares := 3, threshold := 2 },
                        shareHolders := [], createdAt := 0 },
        collectedShares :=
          [{ index := 1, share := "s1", publicKey := "p", address := "a", keyId := "k",
             config := { totalShares := 3, threshold := 2 } }] }
      { index := 1,
        encryptedShare := { ciphertext := "c", nonce := "n", salt := "s", version := 1 },
        publicKey := "p", address := "a", keyId := "k",
        config := { totalShares := 3, threshold := 2 } }
      "password" =
      .ok (false,
        { state := some { keyId := "k", publicKey := "p", address := "a",
                          config := { totalShares := 3, threshold := 2 },
                          shareHolders := [], createdAt := 0 },
          collectedShares :=
            [{ index := 1, share := "s1", publicKey := "p", address := "a", keyId := "k",
               config := { totalShares := 3, threshold := 2 } }] }) := by
  rfl

/-- **C6, amended.**  On a loaded wallet, `addShare` throws the
wrong-wallet error when the envelope's `keyId` differs from the loaded
state's `keyId`; it returns `false` without throwing both when the
share's index is already collected and when decryption fails (the wrong
password); and it returns `true`, appending the decrypted share, when the
index is new and decryption succeeds. -/
theorem addShare_spec (decryptFn : MPC.SerializedEncryptedPayload → String → Option String)
    (w : MPC.MPCWallet) (enc : MPC.EncryptedKeyShare) (password : String)
    (st : MPC.MPCWalletState) (hstate : w.state = some st) :
    (enc.keyId ≠ st.keyId →
      MPC.addShare decryptFn w enc password = .error "Share does not belong to this wallet") ∧
    (enc.keyId = st.keyId →
      (w.collectedShares.any (fun s => s.index = enc.index)) = true →
      MPC.addShare decryptFn w enc password = .ok (false, w)) ∧
    (enc.keyId = st.keyId →
      (w.collectedShares.any (fun s => s.index = enc.index)) = false →
      decryptFn enc.encryptedShare password = none →
      MPC.addShare decryptFn w enc password = .ok (false, w)) ∧
    (enc.keyId = st.keyId →
      (w.collectedShares.any (fun s => s.index = enc.index)) = false →
      ∀ v, decryptFn enc.encryptedShare password = some v →
        MPC.addShare decryptFn w enc password =
          .ok (true, { w with collectedShares := w.collectedShares ++
            [{ index := enc.index, share := v, publicKey := enc.publicKey,
               address := enc.address, keyId := enc.keyId, config := enc.config }] })) := by
  unfold MPC.addShare
  rw [hstate]
  dsimp only
  refine ⟨fun hne => ?_, fun heq hdup => ?_, fun heq hdup hdec => ?_, fun heq hdup v hdec => ?_⟩
  · rw [if_pos hne]
  · rw [if_neg (by simpa using heq), if_pos hdup]
  · rw [if_neg (by simpa using heq), if_neg (by simp [hdup]), hdec]
  · rw [if_neg (by simpa using heq), if_neg (by simp [hdup]), hdec]

/-- Witness for `addShare_spec`: a mismatched `keyId` throws the
wrong-wallet error on a concrete loaded wallet. -/
theorem addShare_spec_witness :
    ("other" : String) ≠ "k" ∧
    MPC.addShare (fun _ _ => some "irrelevant")
      { state := some { keyId := "k", publicKey := "p", address := "a",
                        config := { totalShares := 3, threshold := 2 },
                        shareHolders := [], createdAt := 0 },
        collectedShares := [] }
      { index := 1,
        encryptedShare := { ciphertext := "c", nonce := "n", salt := "s", version := 1 },
        publicKey := "p", address := "a", keyId := "other",
        config := { totalShares := 3, threshold := 2 } }
      "password" = .error "Share does not belong to this wallet" :=
  ⟨by decide,
    (addShare_spec (fun _ _ => some "irrelevant")
      { state := some { keyId := "k", publicKey := "p", address := "a",
                        config := { totalShares := 3, threshold := 2 },
                        shareHolders := [], createdAt := 0 },
        collectedShares := [] }
      { index := 1,
        encryptedShare := { ciphertext := "c", nonce := "n", salt := "s", version := 1 },
        publicKey := "p", address := "a", keyId := "other",
        config := { totalShares := 3, threshold := 2 } }
      "password"
      { keyId := "k", publicKey := "p", address := "a",
        config := { totalShares := 3, threshold := 2 },
        shareHolders := [], createdAt := 0 }
      rfl).1 (by decide)⟩

namespace Guardians

theorem toDecAux_length (fuel : ℕ) :
    ∀ n k : ℕ, n ≤ fuel → n < 10 ^ k → (toDecAux fuel n).length ≤ k := by
  induction fuel with
  | zero => intro n k _ _; simp [toDecAux]
  | succ fuel ih =>
    intro n k hn hk
    unfold toDecAux
    split_ifs with h0
    · simp
    · have hk1 : k ≠ 0 := by
        intro h
        rw [h] at hk
        omega
      have hdiv : n / 10 ≤ fuel := by
        have := Nat.div_lt_self (Nat.pos_of_ne_zero h0) (by norm_num : (1:ℕ) < 10)
        omega
      have hdivk : n / 10 < 10 ^ (k - 1) := by
        apply Nat.div_lt_of_lt_mul
        have hpow : 10 ^ k = 10 * 10 ^ (k - 1) := by
          conv_lhs => rw [show k = (k - 1) + 1 by omega]
          rw [pow_succ]
          ring
        omega
      have := ih (n / 10) (k - 1) hdiv hdivk
      simp only [List.length_append, List.length_cons, List.length_nil]
      omega

theorem toDecAux_digits (fuel : ℕ) :
    ∀ n : ℕ, ∀ c ∈ toDecAux fuel n, 48 ≤ c.toNat ∧ c.toNat ≤ 57 := by
  induction fuel with
  | zero => intro n c hc; simp [toDecAux] at hc
  | succ fuel ih =>
    intro n c hc
    unfold toDecAux at hc
    split_ifs at hc with h0
    · simp at hc
    · rcases List.mem_append.mp hc with hmem | hmem
      · exact ih (n / 10) c hmem
      · have hc' : c = Char.ofNat (48 + n % 10) := by simpa using hmem
        have hd : n % 10 < 10 := Nat.mod_lt _ (by norm_num)
        subst hc'
        set d := n % 10 with hdd
        clear_value d
        interval_cases d <;> exact ⟨by decide, by decide⟩

theorem natToDecDigits_length_le (x k : ℕ) (hk : x < 10 ^ k) (hk0 : k ≠ 0) :
    (natToDecDigits x).length ≤ k := by
  unfold natToDecDigits
  split_ifs with h0
  · simp
    omega
  · exact toDecAux_length _ _ _ (by omega) hk

theorem padSix_length (x : ℕ) (hx : x < 1000000) :
    (List.replicate (6 - (natToDecDigits x).length) '0' ++ natToDecDigits x).length = 6 := by
  have h6 := natToDecDigits_length_le x 6 (by omega) (by omega)
  simp only [List.length_append, List.length_replicate]
  omega

theorem padSix_digits (x : ℕ) :
    ∀ c ∈ List.replicate (6 - (natToDecDigits x).length) '0' ++ natToDecDigits x,
      48 ≤ c.toNat ∧ c.toNat ≤ 57 := by
  intro c hc
  rcases List.mem_append.mp hc with hmem | hmem
  · have : c = '0' := List.eq_of_mem_replicate hmem
    subst this
    exact ⟨by decide, by decide⟩
  · unfold natToDecDigits at hmem
    split_ifs at hmem with h0
    · have : c = '0' := by simpa using hmem
      subst this
      exact ⟨by decide, by decide⟩
    · exact toDecAux_digits _ _ c hmem

theorem generateVerificationCode_length (bytes : List ℕ) :
    (generateVerificationCode bytes).length = 6 := by
  unfold generateVerificationCode
  show (List.replicate _ '0' ++ _).length = 6
  exact padSix_length _ (Nat.mod_lt _ (by norm_num))

theorem generateVerificationCode_digits (bytes : List ℕ) :
    ∀ c ∈ (generateVerificationCode bytes).data, 48 ≤ c.toNat ∧ c.toNat ≤ 57 := by
  unfold generateVerificationCode
  exact fun c hc => padSix_digits _ c hc

/-- Updating the (unique-id) entry found by `find?` is visible to a later
`find?` with the same id predicate. -/
theorem guardians_find?_update (l : List Guardian) (gid : String) (g g' : Guardian)
    (hid : g'.id = gid) (h : l.find? (fun x => x.id = gid) = some g) :
    (l.map (fun x => if x.id = gid then g' else x)).find? (fun x => x.id = gid) = some g' := by
  induction l with
  | nil => simp at h
  | cons x t ih =>
    by_cases hx : x.id = gid
    · simp only [List.map_cons, if_pos hx]
      rw [List.find?_cons_of_pos _ (by simp [hid])]
    · rw [List.find?_cons_of_neg _ (by simp [hx])] at h
      simp only [List.map_cons, if_neg hx]
      rw [List.find?_cons_of_neg _ (by simp [hx])]
      exact ih h

end Guardians

set_option maxRecDepth 1000000 in
/-- **C7, counterexample.**  The stored verification hash is not the
Keccak-256 hash of the code's UTF-8 bytes: `hashVerificationCode` is
SHA-256, and the two digests differ on the code `"123456"`. -/
theorem hashVerificationCode_is_not_keccak :
    Guardians.hashVerificationCode "123456" =
      "8d969eef6ecad3c29a3a629280e686cf0c3f5d5a86aff3ca12020c923adc6c92" ∧
    Hash.bytesToHexString (Hash.keccak256 ("123456".data.map Char.toNat)) =
      "c888c9ce9e098d5864d3ded6ebcc140a12142263bace3a23a36f9905f12bd64a" ∧
    Guardians.hashVerificationCode "123456" ≠
      Hash.bytesToHexString (Hash.keccak256 ("123456".data.map Char.toNat)) := by
  refine ⟨by rfl, by rfl, ?_⟩
  intro h
  rw [show Guardians.hashVerificationCode "123456" =
      "8d969eef6ecad3c29a3a629280e686cf0c3f5d5a86aff3ca12020c923adc6c92" from rfl] at h
  rw [show Hash.bytesToHexString (Hash.keccak256 ("123456".data.map Char.toNat)) =
      "c888c9ce9e098d5864d3ded6ebcc140a12142263bace3a23a36f9905f12bd64a" from rfl] at h
  exact absurd h (by decide)

/-- **C7, amended.**  `createInvite` generates a 6-decimal-digit
verification code and stores on the guardian record a `verificationHash`
equal to the SHA-256 hash (not Keccak-256) of the code's UTF-8 bytes;
`processResponse` recomputes this hash on the received code, fails with
the bad-code error on mismatch, and on match sets the guardian's status
to `accepted` (recording `acceptedAt`) or `declined` and deletes the
invite. -/
theorem guardian_verification_flow
    (codeBytes : List ℕ) (now : ℕ) (inviteId gid waddr oname encShare : String)
    (thr totG : ℕ) (expDays : Option ℕ)
    (st : Guardians.GuardianManagerState) (g : Guardians.Guardian)
    (hfind : st.guardians.find? (fun x => x.id = gid) = some g)
    (now2 : ℕ) (response : Guardians.GuardianResponse)
    (st2 : Guardians.GuardianManagerState) (invite2 : Guardians.GuardianInvite)
    (g2 : Guardians.Guardian)
    (hinv : st2.pendingInvites.find? (fun i => i.id = response.inviteId) = some invite2)
    (hexp : ¬ invite2.expiresAt < now2)
    (hg2 : st2.guardians.find? (fun x => x.id = response.guardianId) = some g2) :
    (Guardians.generateVerificationCode codeBytes).length = 6 ∧
    (∀ c ∈ (Guardians.generateVerificationCode codeBytes).data,
      48 ≤ c.toNat ∧ c.toNat ≤ 57) ∧
    (∃ invite st', Guardians.createInvite now inviteId codeBytes gid waddr oname thr totG
        encShare expDays st = .ok (invite, st') ∧
      invite.verificationCode = Guardians.generateVerificationCode codeBytes ∧
      st'.guardians.find? (fun x => x.id = gid) =
        some { g with verificationHash := some (Hash.bytesToHexString (Hash.sha256
          ((Guardians.generateVerificationCode codeBytes).data.map Char.toNat))) } ∧
      invite ∈ st'.pendingInvites) ∧
    (some (Guardians.hashVerificationCode response.verificationCode) ≠ g2.verificationHash →
      Guardians.processResponse now2 response st2 = (.error "Invalid verification code", st2)) ∧
    (some (Guardians.hashVerificationCode response.verificationCode) = g2.verificationHash →
      (Guardians.processResponse now2 response st2).1 = .ok response.accepted ∧
      (∃ g', (Guardians.processResponse now2 response st2).2.guardians.find?
            (fun x => x.id = response.guardianId) = some g' ∧
          (response.accepted = true → g'.status = .accepted ∧ g'.acceptedAt = some now2) ∧
          (response.accepted = false → g'.status = .declined)) ∧
      ∀ i ∈ (Guardians.processResponse now2 response st2).2.pendingInvites,
        i.id ≠ response.inviteId) := by
  have hgid : g.id = gid := by simpa using List.find?_some hfind
  have hinvid : invite2.id = response.inviteId := by simpa using List.find?_some hinv
  have hg2id : g2.id = response.guardianId := by simpa using List.find?_some hg2
  refine ⟨Guardians.generateVerificationCode_length codeBytes,
    Guardians.generateVerificationCode_digits codeBytes, ?_, ?_, ?_⟩
  · unfold Guardians.createInvite
    rw [hfind]
    dsimp only
    refine ⟨_, _, rfl, rfl, ?_, by simp⟩
    exact Guardians.guardians_find?_update st.guardians gid g _ hgid hfind
  · intro hne
    unfold Guardians.processResponse
    rw [hinv]
    dsimp only
    rw [if_neg hexp, hg2]
    dsimp only
    rw [if_pos hne]
  · intro heq
    unfold Guardians.processResponse
    rw [hinv]
    dsimp only
    rw [if_neg hexp, hg2]
    dsimp only
    rw [if_neg (not_not_intro heq)]
    dsimp only
    refine ⟨rfl, ?_, ?_⟩
    · rw [← hg2id]
      refine ⟨_, Guardians.guardians_find?_update st2.guardians g2.id g2 _
          (by cases hacc : response.accepted <;> rfl) (by rw [hg2id]; exact hg2), ?_, ?_⟩
      · intro hacc
        rw [hacc]
        exact ⟨rfl, rfl⟩
      · intro hacc
        rw [hacc]
        rfl
    · intro i hi
      have hmem := (List.mem_filter.mp hi).2
      intro hcontra
      rw [hcontra, ← hinvid] at hmem
      simp at hmem

set_option maxRecDepth 1000000 in
/-- Witness for `guardian_verification_flow`: a concrete one-guardian
manager; the invite carries code `"000001"` whose SHA-256 hash lands on
the guardian record, and an accepting response with the right code marks
the guardian accepted and removes the invite. -/
theorem guardian_verification_flow_witness :
    (Guardians.generateVerificationCode [0, 0, 0, 1]).length = 6 ∧
    (∀ c ∈ (Guardians.generateVerificationCode [0, 0, 0, 1]).data,
      48 ≤ c.toNat ∧ c.toNat ≤ 57) ∧
    (∃ invite st', Guardians.createInvite 10 "i1" [0, 0, 0, 1] "g1" "w" "o" 3 4
        "enc" none
        { guardians := [{ id := "g1", name := "A", contact := "a@b",
                          contactType := .email, shareIndex := 2, status := .pending,
                          addedAt := 0 }],
          pendingInvites := [] } = .ok (invite, st') ∧
      invite.verificationCode = Guardians.generateVerificationCode [0, 0, 0, 1] ∧
      st'.guardians.find? (fun x => x.id = "g1") =
        some { id := "g1", name := "A", contact := "a@b",
               contactType := .email, shareIndex := 2, status := .pending,
               addedAt := 0,
               verificationHash := some (Hash.bytesToHexString (Hash.sha256
                 ((Guardians.generateVerificationCode [0, 0, 0, 1]).data.map Char.toNat))) } ∧
      invite ∈ st'.pendingInvites) ∧
    (some (Guardians.hashVerificationCode "000001") ≠
        (some "a7fda0b61e2047f0f1057d1f5f064c272fd5d490961c531f4df64b0dd354683a" : Option String) →
      Guardians.processResponse 20
        { inviteId := "i1", guardianId := "g1", accepted := true,
          verificationCode := "000001", respondedAt := 20 }
        { guardians := [{ id := "g1", name := "A", contact := "a@b",
                          contactType := .email, shareIndex := 2, status := .pending,
                          addedAt := 0,
                          verificationHash := some "a7fda0b61e2047f0f1057d1f5f064c272fd5d490961c531f4df64b0dd354683a" }],
          pendingInvites := [{ id := "i1", guardianId := "g1", walletAddress := "w",
                               ownerName := "o", threshold := 3, totalGuardians := 4,
                               encryptedShare := "enc", verificationCode := "000001",
                               expiresAt := 1000, createdAt := 10 }] } =
        (.error "Invalid verification code",
          { guardians := [{ id := "g1", name := "A", contact := "a@b",
                            contactType := .email, shareIndex := 2, status := .pending,
                            addedAt := 0,
                            verificationHash := some "a7fda0b61e2047f0f1057d1f5f064c272fd5d490961c531f4df64b0dd354683a" }],
            pendingInvites := [{ id := "i1", guardianId := "g1", walletAddress := "w",
                                 ownerName := "o", threshold := 3, totalGuardians := 4,
                                 encryptedShare := "enc", verificationCode := "000001",
                                 expiresAt := 1000, createdAt := 10 }] })) ∧
    (some (Guardians.hashVerificationCode "000001") =
        (some "a7fda0b61e2047f0f1057d1f5f064c272fd5d490961c531f4df64b0dd354683a" : Option String) →
      (Guardians.processResponse 20
        { inviteId := "i1", guardianId := "g1", accepted := true,
          verificationCode := "000001", respondedAt := 20 }
        { guardians := [{ id := "g1", name := "A", contact := "a@b",
                          contactType := .email, shareIndex := 2, status := .pending,
                          addedAt := 0,
                          verificationHash := some "a7fda0b61e2047f0f1057d1f5f064c272fd5d490961c531f4df64b0dd354683a" }],
          pendingInvites := [{ id := "i1", guardianId := "g1", walletAddress := "w",
                               ownerName := "o", threshold := 3, totalGuardians := 4,
                               encryptedShare := "enc", verificationCode := "000001",
                               expiresAt := 1000, createdAt := 10 }] }).1 = .ok true ∧
      (∃ g', (Guardians.processResponse 20
          { inviteId := "i1", guardianId := "g1", accepted := true,
            verificationCode := "000001", respondedAt := 20 }
          { guardians := [{ id := "g1", name := "A", contact := "a@b",
                            contactType := .email, shareIndex := 2, status := .pending,
                            addedAt := 0,
                            verificationHash := some "a7fda0b61e2047f0f1057d1f5f064c272fd5d490961c531f4df64b0dd354683a" }],
            pendingInvites := [{ id := "i1", guardianId := "g1", walletAddress := "w",
                                 ownerName := "o", threshold := 3, totalGuardians := 4,
                                 encryptedShare := "enc", verificationCode := "000001",
                                 expiresAt := 1000, createdAt := 10 }] }).2.guardians.find?
            (fun x => x.id = "g1") = some g' ∧
          (true = true → g'.status = .accepted ∧ g'.acceptedAt = some 20) ∧
          (true = false → g'.status = .declined)) ∧
      ∀ i ∈ (Guardians.processResponse 20
          { inviteId := "i1", guardianId := "g1", accepted := true,
            verificationCode := "000001", respondedAt := 20 }
          { guardians := [{ id := "g1", name := "A", contact := "a@b",
                            contactType := .email, shareIndex := 2, status := .pending,
                            addedAt := 0,
                            verificationHash := some "a7fda0b61e2047f0f1057d1f5f064c272fd5d490961c531f4df64b0dd354683a" }],
            pendingInvites := [{ id := "i1", guardianId := "g1", walletAddress := "w",
                                 ownerName := "o", threshold := 3, totalGuardians := 4,
                                 encryptedShare := "enc", verificationCode := "000001",
                                 expiresAt := 1000, createdAt := 10 }] }).2.pendingInvites,
        i.id ≠ "i1") :=
  guardian_verification_flow [0, 0, 0, 1] 10 "i1" "g1" "w" "o" "enc" 3 4 none
    { guardians := [{ id := "g1", name := "A", contact := "a@b",
                      contactType := .email, shareIndex := 2, status := .pending,
                      addedAt := 0 }],
      pendingInvites := [] }
    { id := "g1", name := "A", contact := "a@b", contactType := .email,
      shareIndex := 2, status := .pending, addedAt := 0 }
    rfl 20
    { inviteId := "i1", guardianId := "g1", accepted := true,
      verificationCode := "000001", respondedAt := 20 }
    { guardians := [{ id := "g1", name := "A", contact := "a@b",
                      contactType := .email, shareIndex := 2, status := .pending,
                      addedAt := 0,
                      verificationHash := some "a7fda0b61e2047f0f1057d1f5f064c272fd5d490961c531f4df64b0dd354683a" }],
      pendingInvites := [{ id := "i1", guardianId := "g1", walletAddress := "w",
                           ownerName := "o", threshold := 3, totalGuardians := 4,
                           encryptedShare := "enc", verificationCode := "000001",
                           expiresAt := 1000, createdAt := 10 }] }
    { id := "i1", guardianId := "g1", walletAddress := "w", ownerName := "o",
      threshold := 3, totalGuardians := 4, encryptedShare := "enc",
      verificationCode := "000001", expiresAt := 1000, createdAt := 10 }
    { id := "g1", name := "A", contact := "a@b", contactType := .email,
      shareIndex := 2, status := .pending, addedAt := 0,
      verificationHash := some "a7fda0b61e2047f0f1057d1f5f064c272fd5d490961c531f4df64b0dd354683a" }
    rfl (by decide) rfl

namespace Shamir

theorem modPowAux_lt (m : ℕ) (hm : 1 < m) :
    ∀ (fuel base exp result : ℕ), result < m → modPowAux m fuel base exp result < m := by
  intro fuel
  induction fuel with
  | zero => intro b e r hr; simpa [modPowAux] using hr
  | succ fuel ih =>
    intro b e r hr
    unfold modPowAux
    split_ifs with h0 h1
    · exact hr
    · exact ih _ _ _ (Nat.mod_lt _ (by omega))
    · exact ih _ _ _ hr

theorem modPowAux_modEq (m : ℕ) :
    ∀ (fuel base exp result : ℕ), exp ≤ fuel →
      modPowAux m fuel base exp result % m = (result * base ^ exp) % m := by
  intro fuel
  induction fuel with
  | zero =>
    intro b e r he
    have : e = 0 := by omega
    subst this
    simp [modPowAux]
  | succ fuel ih =>
    intro b e r he
    unfold modPowAux
    split_ifs with h0 h1
    · subst h0
      simp
    · have hdiv : e / 2 ≤ fuel := by
        have := Nat.div_lt_self (Nat.pos_of_ne_zero h0) (by norm_num : (1:ℕ) < 2)
        omega
      rw [ih (b * b % m) (e / 2) _ hdiv]
      calc (r * b % m) * (b * b % m) ^ (e / 2) % m
          = (r * b) * (b * b) ^ (e / 2) % m :=
            (Nat.mod_modEq _ m).mul ((Nat.mod_modEq _ m).pow _)
        _ = r * b ^ e % m := by
            congr 1
            have he2 : e = 2 * (e / 2) + 1 := by omega
            conv_rhs => rw [he2]
            rw [pow_add, pow_mul, pow_one, show b * b = b ^ 2 by ring]
            ring
    · have hdiv : e / 2 ≤ fuel := by
        have := Nat.div_lt_self (Nat.pos_of_ne_zero h0) (by norm_num : (1:ℕ) < 2)
        omega
      rw [ih (b * b % m) (e / 2) _ hdiv]
      calc r * (b * b % m) ^ (e / 2) % m
          = r * (b * b) ^ (e / 2) % m :=
            (Nat.ModEq.refl r).mul ((Nat.mod_modEq _ m).pow _)
        _ = r * b ^ e % m := by
            congr 1
            have he2 : e = 2 * (e / 2) := by omega
            conv_rhs => rw [he2]
            rw [pow_mul, show b * b = b ^ 2 by ring]

theorem modPow_eq (b e m : ℕ) (hm : 1 < m) : modPow b e m = b ^ e % m := by
  have hmq : modPow b e m % m = (1 * (b % m) ^ e) % m :=
    modPowAux_modEq m (e + 1) (b % m) e 1 (by omega)
  have hlt : modPow b e m < m := modPowAux_lt m hm (e + 1) (b % m) e 1 (by omega)
  rw [Nat.mod_eq_of_lt hlt] at hmq
  rw [hmq, one_mul]
  exact (Nat.mod_modEq b m).pow e


theorem prime_dvd_list_prod {q : ℕ} (hq : Nat.Prime q) :
    ∀ l : List ℕ, (∀ r ∈ l, Nat.Prime r) → q ∣ l.prod → q ∈ l := by
  intro l
  induction l with
  | nil =>
    intro _ h
    rw [List.prod_nil, Nat.dvd_one] at h
    exact absurd h hq.ne_one
  | cons a t ih =>
    intro hall hdvd
    rw [List.prod_cons] at hdvd
    rcases (Nat.Prime.dvd_mul hq).mp hdvd with h | h
    · have ha := (Nat.prime_dvd_prime_iff_eq hq (hall a (List.mem_cons_self a t))).mp h
      exact ha ▸ List.mem_cons_self a t
    · exact List.mem_cons_of_mem a (ih (fun r hr => hall r (List.mem_cons_of_mem a hr)) h)

theorem lucas_cert_list (p a : ℕ) (qs : List ℕ) (hp : 2 ≤ p)
    (hprod : p - 1 = qs.prod)
    (hqs : ∀ q ∈ qs, Nat.Prime q)
    (h1 : modPow a (p - 1) p = 1)
    (hne : ∀ q ∈ qs, modPow a ((p - 1) / q) p ≠ 1) :
    Nat.Prime p := by
  haveI : NeZero p := ⟨by omega⟩
  haveI : Fact (1 < p) := ⟨by omega⟩
  have hm : 1 < p := by omega
  have hcast : ∀ e : ℕ, ((a : ZMod p)) ^ e = ((modPow a e p : ℕ) : ZMod p) := by
    intro e
    rw [modPow_eq a e p hm, ZMod.natCast_mod, Nat.cast_pow]
  refine lucas_primality p (a : ZMod p) ?_ ?_
  · rw [hcast, h1, Nat.cast_one]
  · intro q hq hdvd hcontra
    have hmem : q ∈ qs := prime_dvd_list_prod hq qs hqs (hprod ▸ hdvd)
    apply hne q hmem
    have hc := hcast ((p - 1) / q)
    rw [hcontra] at hc
    have hlt : modPow a ((p - 1) / q) p < p := by
      rw [modPow_eq a _ p hm]
      exact Nat.mod_lt _ (by omega)
    have hv := ZMod.val_cast_of_lt hlt
    rw [← hc, ZMod.val_one] at hv
    exact hv.symm

theorem prime_545358713 : Nat.Prime 545358713 := by
  refine lucas_cert_list 545358713 5 [2, 2, 2, 41, 59, 28181] (by norm_num) (by decide) ?_ (by decide) (by decide)
  intro q hq
  simp only [List.mem_cons, List.not_mem_nil, or_false] at hq
  rcases hq with rfl | rfl | rfl | rfl | rfl | rfl <;> norm_num

theorem prime_297159362677 : Nat.Prime 297159362677 := by
  refine lucas_cert_list 297159362677 2 [2, 2, 3, 3, 11, 461, 1627771] (by norm_num) (by decide) ?_ (by decide) (by decide)
  intro q hq
  simp only [List.mem_cons, List.not_mem_nil, or_false] at hq
  rcases hq with rfl | rfl | rfl | rfl | rfl | rfl | rfl <;> norm_num

theorem prime_44706919 : Nat.Prime 44706919 := by
  refine lucas_cert_list 44706919 6 [2, 3, 797, 9349] (by norm_num) (by decide) ?_ (by decide)
    (by decide)
  intro q hq
  simp only [List.mem_cons, List.not_mem_nil, or_false] at hq
  rcases hq with rfl | rfl | rfl | rfl <;> norm_num

set_option maxRecDepth 100000 in
theorem prime_29047611873442575647497758179 :
    Nat.Prime 29047611873442575647497758179 := by
  refine lucas_cert_list 29047611873442575647497758179 2
    [2, 293, 305873, 545358713, 297159362677] (by norm_num) (by decide) ?_ (by decide) (by decide)
  intro q hq
  simp only [List.mem_cons, List.not_mem_nil, or_false] at hq
  rcases hq with rfl | rfl | rfl | rfl | rfl
  · norm_num
  · norm_num
  · norm_num
  · exact prime_545358713
  · exact prime_297159362677

set_option maxRecDepth 100000 in
theorem prime_341948486974166000522343609283189 :
    Nat.Prime 341948486974166000522343609283189 := by
  refine lucas_cert_list 341948486974166000522343609283189 2
    [2, 2, 3, 3, 3, 109, 29047611873442575647497758179] (by norm_num) (by decide) ?_ (by decide) (by decide)
  intro q hq
  simp only [List.mem_cons, List.not_mem_nil, or_false] at hq
  rcases hq with rfl | rfl | rfl | rfl | rfl | rfl | rfl
  · norm_num
  · norm_num
  · norm_num
  · norm_num
  · norm_num
  · norm_num
  · exact prime_29047611873442575647497758179

theorem prime_107361793816595537 : Nat.Prime 107361793816595537 := by
  refine lucas_cert_list 107361793816595537 3
    [2, 2, 2, 2, 16699, 85831, 4681609] (by norm_num) (by decide) ?_ (by decide) (by decide)
  intro q hq
  simp only [List.mem_cons, List.not_mem_nil, or_false] at hq
  rcases hq with rfl | rfl | rfl | rfl | rfl | rfl | rfl <;> norm_num

theorem prime_174723607534414371449 : Nat.Prime 174723607534414371449 := by
  refine lucas_cert_list 174723607534414371449 3
    [2, 2, 2, 17, 59, 4051, 120233, 44706919] (by norm_num) (by decide) ?_ (by decide) (by decide)
  intro q hq
  simp only [List.mem_cons, List.not_mem_nil, or_false] at hq
  rcases hq with rfl | rfl | rfl | rfl | rfl | rfl | rfl | rfl
  · norm_num
  · norm_num
  · norm_num
  · norm_num
  · norm_num
  · norm_num
  · norm_num
  · exact prime_44706919

set_option maxRecDepth 1000000 in
theorem PRIME_prime : Nat.Prime PRIME := by
  refine lucas_cert_list PRIME 7
    [2, 2, 2, 2, 2, 2, 3, 149, 631, 107361793816595537, 174723607534414371449,
      341948486974166000522343609283189] (by decide) (by decide) ?_ (by decide) (by decide)
  intro q hq
  simp only [List.mem_cons, List.not_mem_nil, or_false] at hq
  rcases hq with rfl | rfl | rfl | rfl | rfl | rfl | rfl | rfl | rfl | rfl | rfl | rfl
  · norm_num
  · norm_num
  · norm_num
  · norm_num
  · norm_num
  · norm_num
  · norm_num
  · norm_num
  · norm_num
  · exact prime_107361793816595537
  · exact prime_174723607534414371449
  · exact prime_341948486974166000522343609283189

theorem PRIME_pos : 0 < PRIME := by decide

theorem hexListToNat_foldl : ∀ (l : List Char) (acc : ℕ),
    l.foldl (fun a c => a * 16 + hexCharVal c) acc
      = acc * 16 ^ l.length + hexListToNat l := by
  intro l
  induction l with
  | nil => intro acc; simp [hexListToNat]
  | cons c t ih =>
    intro acc
    have h1 : (c :: t).foldl (fun a c => a * 16 + hexCharVal c) acc
        = t.foldl (fun a c => a * 16 + hexCharVal c) (acc * 16 + hexCharVal c) := rfl
    have h2 : hexListToNat (c :: t)
        = t.foldl (fun a c => a * 16 + hexCharVal c) (0 * 16 + hexCharVal c) := rfl
    rw [h1, ih, h2, ih, List.length_cons, pow_succ]
    ring

theorem hexListToNat_append (l1 l2 : List Char) :
    hexListToNat (l1 ++ l2) = hexListToNat l1 * 16 ^ l2.length + hexListToNat l2 := by
  have h : hexListToNat (l1 ++ l2)
      = l2.foldl (fun a c => a * 16 + hexCharVal c) (hexListToNat l1) := by
    show (l1 ++ l2).foldl _ 0 = _
    rw [List.foldl_append]
    rfl
  rw [h, hexListToNat_foldl]

theorem hexCharVal_hexDigitChar : ∀ d < 16, hexCharVal (hexDigitChar d) = d := by decide

theorem hexDigitChar_ne_x : ∀ d < 16, hexDigitChar d ≠ 'x' := by decide

theorem toHexAux_eq : ∀ (fuel n : ℕ), n ≤ fuel → hexListToNat (toHexAux fuel n) = n := by
  intro fuel
  induction fuel with
  | zero =>
    intro n hn
    have : n = 0 := by omega
    subst this
    rfl
  | succ fuel ih =>
    intro n hn
    unfold toHexAux
    split_ifs with h0
    · subst h0; rfl
    · rw [hexListToNat_append, ih (n / 16) (by omega)]
      have hd : hexListToNat [hexDigitChar (n % 16)] = n % 16 := by
        show 0 * 16 + hexCharVal (hexDigitChar (n % 16)) = n % 16
        rw [hexCharVal_hexDigitChar (n % 16) (Nat.mod_lt n (by norm_num))]
        omega
      rw [hd]
      simp only [List.length_cons, List.length_nil, pow_one]
      omega

theorem toHexAux_ne_x : ∀ (fuel n : ℕ), ∀ c ∈ toHexAux fuel n, c ≠ 'x' := by
  intro fuel
  induction fuel with
  | zero => intro n c hc; simp [toHexAux] at hc
  | succ fuel ih =>
    intro n c hc
    unfold toHexAux at hc
    split_ifs at hc with h0
    · simp at hc
    · rcases List.mem_append.mp hc with h | h
      · exact ih _ c h
      · rcases List.mem_singleton.mp h with rfl
        exact hexDigitChar_ne_x (n % 16) (Nat.mod_lt n (by norm_num))

theorem natToHexDigits_eq (n : ℕ) : hexListToNat (natToHexDigits n) = n := by
  unfold natToHexDigits
  split_ifs with h0
  · subst h0; rfl
  · exact toHexAux_eq (n + 1) n (by omega)

theorem natToHexDigits_ne_x (n : ℕ) : ∀ c ∈ natToHexDigits n, c ≠ 'x' := by
  unfold natToHexDigits
  split_ifs with h0
  · intro c hc
    rcases List.mem_singleton.mp hc with rfl
    decide
  · exact toHexAux_ne_x (n + 1) n

theorem hexListToNat_replicate_zero : ∀ m : ℕ, hexListToNat (List.replicate m '0') = 0 := by
  intro m
  induction m with
  | zero => rfl
  | succ m ih =>
    rw [List.replicate_succ]
    have h : hexListToNat ('0' :: List.replicate m '0')
        = (List.replicate m '0').foldl (fun a c => a * 16 + hexCharVal c)
            (0 * 16 + hexCharVal '0') := rfl
    rw [h, hexListToNat_foldl, ih]
    have hc : hexCharVal '0' = 0 := by decide
    rw [hc]
    simp

theorem hexToBigInt_mk (l : List Char) (h : ∀ c ∈ l, c ≠ 'x') :
    hexToBigInt ⟨l⟩ = hexListToNat l := by
  have hne : l.take 2 ≠ ['0', 'x'] := by
    intro hEq
    cases l with
    | nil => simp at hEq
    | cons a t =>
      cases t with
      | nil => simp at hEq
      | cons b t2 =>
        have h2 : List.take 2 (a :: b :: t2) = [a, b] := rfl
        rw [h2] at hEq
        simp only [List.cons.injEq, and_true] at hEq
        exact h b (List.mem_cons_of_mem _ (List.mem_cons_self _ _)) hEq.2
  unfold hexToBigInt
  simp only [String.data]
  rw [if_neg hne]

theorem hexToBigInt_bigIntToHex (v : ℕ) : hexToBigInt (bigIntToHex v) = v := by
  unfold bigIntToHex
  rw [hexToBigInt_mk]
  · rw [hexListToNat_append, hexListToNat_replicate_zero, natToHexDigits_eq]
    omega
  · intro c hc
    rcases List.mem_append.mp hc with h | h
    · rcases List.eq_of_mem_replicate h with rfl
      decide
    · exact natToHexDigits_ne_x v c h

theorem evalPoly_foldl (x : ℕ) : ∀ (l : List ℕ) (r p : ℕ),
    (((l.foldl (fun rp coef => ((rp.1 + coef * rp.2) % PRIME, rp.2 * x % PRIME)) (r, p)).1 : ℕ) :
        ZMod PRIME)
      = (r : ZMod PRIME) + (p : ZMod PRIME) * Polynomial.eval (x : ZMod PRIME)
          (l.foldr (fun c q => Polynomial.C (c : ZMod PRIME) + Polynomial.X * q) 0) := by
  intro l
  induction l with
  | nil => intro r p; simp
  | cons c t ih =>
    intro r p
    have h1 : (c :: t).foldl (fun rp coef => ((rp.1 + coef * rp.2) % PRIME, rp.2 * x % PRIME)) (r, p)
        = t.foldl (fun rp coef => ((rp.1 + coef * rp.2) % PRIME, rp.2 * x % PRIME))
            ((r + c * p) % PRIME, p * x % PRIME) := rfl
    have h2 : (c :: t).foldr (fun c q => Polynomial.C (c : ZMod PRIME) + Polynomial.X * q) 0
        = Polynomial.C (c : ZMod PRIME) + Polynomial.X *
            t.foldr (fun c q => Polynomial.C (c : ZMod PRIME) + Polynomial.X * q) 0 := rfl
    rw [h1, ih, h2]
    simp only [ZMod.natCast_mod, Nat.cast_add, Nat.cast_mul, Polynomial.eval_add,
      Polynomial.eval_mul, Polynomial.eval_C, Polynomial.eval_X]
    ring

theorem evaluatePolynomial_cast (l : List ℕ) (x : ℕ) :
    ((evaluatePolynomial l x : ℕ) : ZMod PRIME)
      = Polynomial.eval (x : ZMod PRIME)
          (l.foldr (fun c q => Polynomial.C (c : ZMod PRIME) + Polynomial.X * q) 0) := by
  have h0 : evaluatePolynomial l x
      = ((l.foldl (fun rp coef => ((rp.1 + coef * rp.2) % PRIME, rp.2 * x % PRIME)) (0, 1)).1
          % PRIME + PRIME) % PRIME := rfl
  rw [h0, ZMod.natCast_mod, Nat.cast_add, ZMod.natCast_self, add_zero, ZMod.natCast_mod,
    evalPoly_foldl x l 0 1, Nat.cast_zero, Nat.cast_one, zero_add, one_mul]

theorem evaluatePolynomial_lt (l : List ℕ) (x : ℕ) : evaluatePolynomial l x < PRIME := by
  unfold evaluatePolynomial
  exact Nat.mod_lt _ PRIME_pos

theorem modInverse_cast (a : ℕ) (ha : (a : ZMod PRIME) ≠ 0) :
    ((modInverse a PRIME : ℕ) : ZMod PRIME) = (a : ZMod PRIME)⁻¹ := by
  haveI : Fact (Nat.Prime PRIME) := ⟨PRIME_prime⟩
  have hm : 1 < PRIME := by decide
  unfold modInverse
  rw [modPow_eq a (PRIME - 2) PRIME hm, ZMod.natCast_mod, Nat.cast_pow]
  have h1 : (a : ZMod PRIME) ^ (PRIME - 1) = 1 := ZMod.pow_card_sub_one_eq_one ha
  have h2 : (a : ZMod PRIME) ^ (PRIME - 2) * (a : ZMod PRIME) = 1 := by
    rw [← pow_succ]
    have he : PRIME - 2 + 1 = PRIME - 1 := by omega
    rw [he, h1]
  exact eq_inv_of_mul_eq_one_left h2

theorem neg_lt_tmod (a : ℤ) {b : ℤ} (hb : 0 < b) : -b < a.tmod b := by
  cases a with
  | ofNat m =>
    have h := Int.tmod_nonneg b (show (0 : ℤ) ≤ Int.ofNat m from Int.ofNat_nonneg m)
    omega
  | negSucc m =>
    obtain ⟨n, rfl⟩ : ∃ n : ℕ, b = (n : ℤ) := ⟨b.toNat, (Int.toNat_of_nonneg hb.le).symm⟩
    have hn : 0 < n := by exact_mod_cast hb
    have hdef : Int.tmod (Int.negSucc m) (n : ℤ) = -((Nat.succ m % n : ℕ) : ℤ) := rfl
    rw [hdef]
    have := Nat.mod_lt (Nat.succ m) hn
    omega

theorem intCast_PRIME_zero : (((PRIME : ℕ) : ℤ) : ZMod PRIME) = 0 := by
  rw [Int.cast_natCast, ZMod.natCast_self]

theorem intCast_tmod_PRIME (a : ℤ) :
    ((a.tmod (PRIME : ℤ) : ℤ) : ZMod PRIME) = (a : ZMod PRIME) := by
  rw [Int.tmod_def, Int.cast_sub, Int.cast_mul, intCast_PRIME_zero, zero_mul, sub_zero]

theorem norm_tmod_cast (v : ℤ) :
    ((((v.tmod (PRIME : ℤ) + PRIME).tmod (PRIME : ℤ)).toNat : ℕ) : ZMod PRIME)
      = (v : ZMod PRIME) := by
  have hP : 0 < ((PRIME : ℕ) : ℤ) := by exact_mod_cast PRIME_pos
  have h0 : 0 ≤ v.tmod (PRIME : ℤ) + PRIME := by
    have := neg_lt_tmod v hP
    omega
  have h1 : 0 ≤ (v.tmod (PRIME : ℤ) + PRIME).tmod (PRIME : ℤ) := Int.tmod_nonneg _ h0
  have h2 : ((((v.tmod (PRIME : ℤ) + PRIME).tmod (PRIME : ℤ)).toNat : ℕ) : ℤ)
      = (v.tmod (PRIME : ℤ) + PRIME).tmod (PRIME : ℤ) := Int.toNat_of_nonneg h1
  have h3 : ((((v.tmod (PRIME : ℤ) + PRIME).tmod (PRIME : ℤ)).toNat : ℕ) : ZMod PRIME)
      = (((v.tmod (PRIME : ℤ) + PRIME).tmod (PRIME : ℤ) : ℤ) : ZMod PRIME) := by
    rw [← Int.cast_natCast, h2]
  rw [h3, intCast_tmod_PRIME, Int.cast_add, intCast_tmod_PRIME, intCast_PRIME_zero, add_zero]

theorem poly_coeff_eq_zero (l : List ℕ) : ∀ m : ℕ, l.length ≤ m →
    (l.foldr (fun c q => Polynomial.C (c : ZMod PRIME) + Polynomial.X * q) 0).coeff m = 0 := by
  induction l with
  | nil => intro m _; simp
  | cons c t ih =>
    intro m hm
    rw [List.length_cons] at hm
    obtain ⟨m', rfl⟩ : ∃ m', m = m' + 1 := ⟨m - 1, by omega⟩
    have h1 : ((c :: t).foldr (fun c q => Polynomial.C (c : ZMod PRIME) + Polynomial.X * q) 0)
        = Polynomial.C (c : ZMod PRIME) + Polynomial.X *
            (t.foldr (fun c q => Polynomial.C (c : ZMod PRIME) + Polynomial.X * q) 0) := rfl
    rw [h1, Polynomial.coeff_add, Polynomial.coeff_C, Polynomial.coeff_X_mul,
      ih m' (by omega)]
    simp

theorem poly_degree_lt (l : List ℕ) :
    (l.foldr (fun c q => Polynomial.C (c : ZMod PRIME) + Polynomial.X * q) 0).degree
      < (l.length : WithBot ℕ) := by
  rw [Polynomial.degree_lt_iff_coeff_zero]
  intro m hm
  exact poly_coeff_eq_zero l m (by exact_mod_cast hm)

theorem natCast_zmod_inj_of_lt {a b : ℕ} (ha : a < PRIME) (hb : b < PRIME)
    (h : (a : ZMod PRIME) = (b : ZMod PRIME)) : a = b := by
  haveI : NeZero PRIME := ⟨Nat.pos_iff_ne_zero.mp PRIME_pos⟩
  have hv := congrArg ZMod.val h
  rwa [ZMod.val_cast_of_lt ha, ZMod.val_cast_of_lt hb] at hv

theorem foldl_addmod_cast (f : ℕ × Share → ℕ) :
    ∀ (l : List (ℕ × Share)) (a : ℕ),
      ((l.foldl (fun s ip => (s + f ip) % PRIME) a : ℕ) : ZMod PRIME)
        = (a : ZMod PRIME) + (l.map fun ip => ((f ip : ℕ) : ZMod PRIME)).sum := by
  intro l
  induction l with
  | nil => intro a; simp
  | cons ip t ih =>
    intro a
    have h1 : (ip :: t).foldl (fun s ip => (s + f ip) % PRIME) a
        = t.foldl (fun s ip => (s + f ip) % PRIME) ((a + f ip) % PRIME) := rfl
    rw [h1, ih, List.map_cons, List.sum_cons, ZMod.natCast_mod, Nat.cast_add]
    ring

theorem enum_map_sum {β : Type} [AddCommMonoid β] (l : List Share) (f : ℕ × Share → β) :
    (l.enum.map f).sum = ∑ j : Fin l.length, f (j.val, l.get j) := by
  have h : l.enum.map f = List.ofFn (fun j : Fin l.length => f (j.val, l.get j)) := by
    apply List.ext_getElem
    · simp
    · intro i h1 h2
      simp [List.getElem_enum]
  rw [h, List.sum_ofFn]

theorem enumFrom_foldl_tmod_cast (g : Share → ℤ) (i : ℕ) :
    ∀ (l : List Share) (k : ℕ) (a : ℤ),
      ((((l.enumFrom k).foldl
          (fun acc jp => if i = jp.1 then acc else (acc * g jp.2).tmod PRIME) a : ℤ)) : ZMod PRIME)
        = (a : ZMod PRIME) * ∏ j : Fin l.length,
            (if i = k + j.val then 1 else ((g (l.get j) : ℤ) : ZMod PRIME)) := by
  intro l
  induction l with
  | nil => intro k a; simp
  | cons sh t ih =>
    intro k a
    have h1 : ((sh :: t).enumFrom k) = (k, sh) :: t.enumFrom (k + 1) := rfl
    have h2 : (((k, sh) :: t.enumFrom (k + 1)).foldl
          (fun acc jp => if i = jp.1 then acc else (acc * g jp.2).tmod PRIME) a)
        = (t.enumFrom (k + 1)).foldl
            (fun acc jp => if i = jp.1 then acc else (acc * g jp.2).tmod PRIME)
            (if i = k then a else (a * g sh).tmod PRIME) := by
      show (t.enumFrom (k + 1)).foldl _ (if i = (k, sh).1 then a else (a * g (k, sh).2).tmod PRIME)
          = _
      rfl
    rw [h1, h2, ih]
    simp only [List.length_cons]
    rw [Fin.prod_univ_succ]
    have hidx : ∀ j : Fin t.length, ((sh :: t).get j.succ) = t.get j := fun j => rfl
    have hidx2 : ∀ j : Fin t.length, (k + (j.val + 1)) = (k + 1 + j.val) := fun j => by omega
    have h3 : (∏ j : Fin t.length,
          (if i = k + (j.succ).val then 1 else ((g ((sh :: t).get j.succ) : ℤ) : ZMod PRIME)))
        = ∏ j : Fin t.length,
          (if i = k + 1 + j.val then 1 else ((g (t.get j) : ℤ) : ZMod PRIME)) := by
      apply Finset.prod_congr rfl
      intro j _
      rw [hidx j, Fin.val_succ, hidx2 j]
    by_cases hik : i = k
    · rw [if_pos hik]
      have h4 : (if i = k + (0 : Fin (t.length + 1)).val then 1
          else ((g ((sh :: t).get (0 : Fin (t.length + 1))) : ℤ) : ZMod PRIME)) = 1 := by
        rw [if_pos (by simpa using hik)]
      rw [h4, h3, one_mul]
    · rw [if_neg hik]
      have h4 : (if i = k + (0 : Fin (t.length + 1)).val then 1
          else ((g ((sh :: t).get (0 : Fin (t.length + 1))) : ℤ) : ZMod PRIME)) = ((g sh : ℤ) : ZMod PRIME) := by
        rw [if_neg (by simpa using hik)]
        rfl
      rw [h4, h3, intCast_tmod_PRIME, Int.cast_mul]
      ring

theorem prod_ite_erase {n : ℕ} (i : Fin n) (f : Fin n → ZMod PRIME) :
    (∏ j : Fin n, if i.val = j.val then 1 else f j)
      = ∏ j ∈ Finset.univ.erase i, f j := by
  rw [← Finset.mul_prod_erase Finset.univ (fun j => if i.val = j.val then 1 else f j)
    (Finset.mem_univ i)]
  rw [if_pos rfl, one_mul]
  apply Finset.prod_congr rfl
  intro j hj
  have hne : i ≠ j := fun h => (Finset.mem_erase.mp hj).1 h.symm
  rw [if_neg (fun hv => hne (Fin.eq_of_val_eq hv))]

theorem numerator_foldl_cast (i : ℕ) (l : List Share) (a : ℤ) :
    ((l.enum.foldl (fun num jp => if i = jp.1 then num
        else (num * (-(jp.2.x : ℤ))).tmod PRIME) a : ℤ) : ZMod PRIME)
      = (a : ZMod PRIME) * ∏ j : Fin l.length,
          (if i = j.val then 1 else -(((l.get j).x : ℕ) : ZMod PRIME)) := by
  have h : ((l.enum.foldl (fun num jp => if i = jp.1 then num
        else (num * (-(jp.2.x : ℤ))).tmod PRIME) a : ℤ) : ZMod PRIME)
      = (a : ZMod PRIME) * ∏ j : Fin l.length,
          (if i = 0 + j.val then 1 else ((-(((l.get j).x : ℕ) : ℤ) : ℤ) : ZMod PRIME)) :=
    enumFrom_foldl_tmod_cast (fun sh => -(sh.x : ℤ)) i l 0 a
  rw [h]
  congr 1
  apply Finset.prod_congr rfl
  intro m _
  rw [Nat.zero_add]
  by_cases him : i = m.val
  · rw [if_pos him, if_pos him]
  · rw [if_neg him, if_neg him]
    push_cast
    ring

theorem denominator_foldl_cast (i : ℕ) (xi : ℤ) (l : List Share) (a : ℤ) :
    ((l.enum.foldl (fun den jp => if i = jp.1 then den
        else (den * (xi - (jp.2.x : ℤ))).tmod PRIME) a : ℤ) : ZMod PRIME)
      = (a : ZMod PRIME) * ∏ j : Fin l.length,
          (if i = j.val then 1 else (xi : ZMod PRIME) - (((l.get j).x : ℕ) : ZMod PRIME)) := by
  have h : ((l.enum.foldl (fun den jp => if i = jp.1 then den
        else (den * (xi - (jp.2.x : ℤ))).tmod PRIME) a : ℤ) : ZMod PRIME)
      = (a : ZMod PRIME) * ∏ j : Fin l.length,
          (if i = 0 + j.val then 1 else ((xi - (((l.get j).x : ℕ) : ℤ) : ℤ) : ZMod PRIME)) :=
    enumFrom_foldl_tmod_cast (fun sh => xi - (sh.x : ℤ)) i l 0 a
  rw [h]
  congr 1
  apply Finset.prod_congr rfl
  intro m _
  rw [Nat.zero_add]
  by_cases him : i = m.val
  · rw [if_pos him, if_pos him]
  · rw [if_neg him, if_neg him]
    push_cast
    ring

theorem basis_eval_zero {F : Type} [Field F] {n : ℕ} (v : Fin n → F) (j : Fin n) :
    Polynomial.eval 0 (Lagrange.basis Finset.univ v j)
      = (∏ m ∈ Finset.univ.erase j, (v j - v m))⁻¹ * ∏ m ∈ Finset.univ.erase j, -(v m) := by
  have h0 : Lagrange.basis Finset.univ v j
      = ∏ m ∈ Finset.univ.erase j, Lagrange.basisDivisor (v j) (v m) := rfl
  rw [h0, Polynomial.eval_prod]
  have h1 : ∀ m ∈ Finset.univ.erase j,
      Polynomial.eval 0 (Lagrange.basisDivisor (v j) (v m)) = (v j - v m)⁻¹ * -(v m) := by
    intro m _
    have h2 : Lagrange.basisDivisor (v j) (v m)
        = Polynomial.C ((v j - v m)⁻¹) * (Polynomial.X - Polynomial.C (v m)) := rfl
    rw [h2]
    simp [zero_sub]
  rw [Finset.prod_congr rfl h1, Finset.prod_mul_distrib, Finset.prod_inv_distrib]

theorem interpolate_eval_zero {F : Type} [Field F] {n : ℕ} (v : Fin n → F) (r : Fin n → F) :
    Polynomial.eval 0 (Lagrange.interpolate Finset.univ v r)
      = ∑ j : Fin n, r j * Polynomial.eval 0 (Lagrange.basis Finset.univ v j) := by
  rw [Lagrange.interpolate_apply, Polynomial.eval_finset_sum]
  exact Finset.sum_congr rfl fun j _ => by rw [Polynomial.eval_mul, Polynomial.eval_C]

set_option maxRecDepth 10000 in
theorem combineShares_correct (coeffs : List ℕ) (S : List Share)
    (hS2 : 2 ≤ S.length)
    (hclen : coeffs.length ≤ S.length) (hcne : coeffs ≠ [])
    (hx : (S.map (·.x)).Nodup)
    (hxlt : ∀ sh ∈ S, sh.x < PRIME)
    (hy : ∀ sh ∈ S, hexToBigInt sh.y = evaluatePolynomial coeffs sh.x) :
    combineShares S = .ok (bigIntToHex (coeffs.headD 0 % PRIME)) := by
  haveI : Fact (Nat.Prime PRIME) := ⟨PRIME_prime⟩
  haveI : NeZero PRIME := ⟨Nat.pos_iff_ne_zero.mp PRIME_pos⟩
  have hvinj : ∀ m1 m2 : Fin S.length,
      (((S.get m1).x : ℕ) : ZMod PRIME) = (((S.get m2).x : ℕ) : ZMod PRIME) → m1 = m2 := by
    intro m1 m2 h
    have hxeq : (S.get m1).x = (S.get m2).x :=
      natCast_zmod_inj_of_lt (hxlt _ (List.get_mem S m1.val m1.isLt))
        (hxlt _ (List.get_mem S m2.val m2.isLt)) h
    have h1 : m1.val < (S.map (·.x)).length := by simp
    have h2 : m2.val < (S.map (·.x)).length := by simp
    have hg : (S.map (·.x))[m1.val] = (S.map (·.x))[m2.val] := by
      simpa using hxeq
    exact Fin.ext (hx.getElem_inj_iff.mp hg)
  have hinjOn : Set.InjOn (fun m : Fin S.length => (((S.get m).x : ℕ) : ZMod PRIME))
      ↑(Finset.univ : Finset (Fin S.length)) := fun m1 _ m2 _ h => hvinj m1 m2 h
  have hdeg : (coeffs.foldr (fun c q => Polynomial.C (c : ZMod PRIME) + Polynomial.X * q) 0).degree
      < (((Finset.univ : Finset (Fin S.length)).card : ℕ) : WithBot ℕ) := by
    have h1 := poly_degree_lt coeffs
    have h2 : ((coeffs.length : ℕ) : WithBot ℕ) ≤ ((S.length : ℕ) : WithBot ℕ) := by
      exact_mod_cast hclen
    rw [Finset.card_univ, Fintype.card_fin]
    exact lt_of_lt_of_le h1 h2
  have hQ : (coeffs.foldr (fun c q => Polynomial.C (c : ZMod PRIME) + Polynomial.X * q) 0) = Lagrange.interpolate Finset.univ (fun m : Fin S.length => (((S.get m).x : ℕ) : ZMod PRIME))
      (fun i => Polynomial.eval (((S.get i).x : ℕ) : ZMod PRIME) (coeffs.foldr (fun c q => Polynomial.C (c : ZMod PRIME) + Polynomial.X * q) 0)) :=
    Lagrange.eq_interpolate hinjOn hdeg
  have hterm : ∀ j : Fin S.length,
      ((hexToBigInt (S.get j).y * (((((S.enum.foldl (fun num jp => if j.val = jp.1 then num
          else (num * (-(jp.2.x : ℤ))).tmod PRIME) 1).tmod PRIME + PRIME).tmod PRIME).toNat) * modInverse ((((S.enum.foldl (fun den jp => if j.val = jp.1 then den
          else (den * (((S.get j).x : ℤ) - (jp.2.x : ℤ))).tmod PRIME) 1).tmod PRIME + PRIME).tmod PRIME).toNat) PRIME % PRIME) : ℕ) : ZMod PRIME)
        = Polynomial.eval (((S.get j).x : ℕ) : ZMod PRIME) (coeffs.foldr (fun c q => Polynomial.C (c : ZMod PRIME) + Polynomial.X * q) 0) *
          Polynomial.eval 0 (Lagrange.basis Finset.univ (fun m : Fin S.length => (((S.get m).x : ℕ) : ZMod PRIME)) j) := by
    intro j
    have hnum : ((((((S.enum.foldl (fun num jp => if j.val = jp.1 then num
          else (num * (-(jp.2.x : ℤ))).tmod PRIME) 1).tmod PRIME + PRIME).tmod PRIME).toNat) : ℕ) : ZMod PRIME)
        = ∏ m ∈ Finset.univ.erase j, -(((S.get m).x : ℕ) : ZMod PRIME) := by
      rw [norm_tmod_cast, numerator_foldl_cast j.val S 1, Int.cast_one, one_mul]
      exact prod_ite_erase j _
    have hden : ((((((S.enum.foldl (fun den jp => if j.val = jp.1 then den
          else (den * (((S.get j).x : ℤ) - (jp.2.x : ℤ))).tmod PRIME) 1).tmod PRIME + PRIME).tmod PRIME).toNat) : ℕ) : ZMod PRIME)
        = ∏ m ∈ Finset.univ.erase j,
            ((((S.get j).x : ℕ) : ZMod PRIME) - (((S.get m).x : ℕ) : ZMod PRIME)) := by
      rw [norm_tmod_cast, denominator_foldl_cast j.val ((S.get j).x : ℤ) S 1,
        Int.cast_one, one_mul]
      simp only [Int.cast_natCast]
      exact prod_ite_erase j _
    have hdne : (∏ m ∈ Finset.univ.erase j,
        ((((S.get j).x : ℕ) : ZMod PRIME) - (((S.get m).x : ℕ) : ZMod PRIME))) ≠ 0 := by
      rw [Finset.prod_ne_zero_iff]
      intro m hm
      have hne : m ≠ j := (Finset.mem_erase.mp hm).1
      refine sub_ne_zero_of_ne fun hvv => hne ?_
      exact (hvinj j m hvv).symm
    have hinv : ((modInverse ((((S.enum.foldl (fun den jp => if j.val = jp.1 then den
          else (den * (((S.get j).x : ℤ) - (jp.2.x : ℤ))).tmod PRIME) 1).tmod PRIME + PRIME).tmod PRIME).toNat) PRIME : ℕ) : ZMod PRIME)
        = (∏ m ∈ Finset.univ.erase j,
            ((((S.get j).x : ℕ) : ZMod PRIME) - (((S.get m).x : ℕ) : ZMod PRIME)))⁻¹ := by
      rw [modInverse_cast _ (by rw [hden]; exact hdne), hden]
    have hyj : ((hexToBigInt (S.get j).y : ℕ) : ZMod PRIME)
        = Polynomial.eval (((S.get j).x : ℕ) : ZMod PRIME) (coeffs.foldr (fun c q => Polynomial.C (c : ZMod PRIME) + Polynomial.X * q) 0) := by
      rw [hy (S.get j) (List.get_mem S j.val j.isLt), evaluatePolynomial_cast]
    rw [Nat.cast_mul, ZMod.natCast_mod, Nat.cast_mul, hyj, hnum, hinv,
      basis_eval_zero (fun m : Fin S.length => (((S.get m).x : ℕ) : ZMod PRIME)) j]
    ring
  have hfold : ((S.enum.foldl (combineStep S) 0 : ℕ) : ZMod PRIME)
      = ((coeffs.headD 0 : ℕ) : ZMod PRIME) := by
    have h0 : S.enum.foldl (combineStep S) 0
        = S.enum.foldl (fun sec ip => (sec + (hexToBigInt ip.2.y * (((((S.enum.foldl (fun num jp => if ip.1 = jp.1 then num
          else (num * (-(jp.2.x : ℤ))).tmod PRIME) 1).tmod PRIME + PRIME).tmod PRIME).toNat) * modInverse ((((S.enum.foldl (fun den jp => if ip.1 = jp.1 then den
          else (den * ((ip.2.x : ℤ) - (jp.2.x : ℤ))).tmod PRIME) 1).tmod PRIME + PRIME).tmod PRIME).toNat) PRIME % PRIME))) % PRIME) 0 := rfl
    rw [h0]
    have h1 : ((S.enum.foldl (fun sec ip => (sec + (hexToBigInt ip.2.y * (((((S.enum.foldl (fun num jp => if ip.1 = jp.1 then num
          else (num * (-(jp.2.x : ℤ))).tmod PRIME) 1).tmod PRIME + PRIME).tmod PRIME).toNat) * modInverse ((((S.enum.foldl (fun den jp => if ip.1 = jp.1 then den
          else (den * ((ip.2.x : ℤ) - (jp.2.x : ℤ))).tmod PRIME) 1).tmod PRIME + PRIME).tmod PRIME).toNat) PRIME % PRIME))) % PRIME) 0 : ℕ) : ZMod PRIME)
        = ((0 : ℕ) : ZMod PRIME)
          + (S.enum.map fun ip => ((hexToBigInt ip.2.y * (((((S.enum.foldl (fun num jp => if ip.1 = jp.1 then num
          else (num * (-(jp.2.x : ℤ))).tmod PRIME) 1).tmod PRIME + PRIME).tmod PRIME).toNat) * modInverse ((((S.enum.foldl (fun den jp => if ip.1 = jp.1 then den
          else (den * ((ip.2.x : ℤ) - (jp.2.x : ℤ))).tmod PRIME) 1).tmod PRIME + PRIME).tmod PRIME).toNat) PRIME % PRIME) : ℕ) : ZMod PRIME)).sum :=
      foldl_addmod_cast _ S.enum 0
    rw [h1, Nat.cast_zero, zero_add]
    have h2 : (S.enum.map fun ip => ((hexToBigInt ip.2.y * (((((S.enum.foldl (fun num jp => if ip.1 = jp.1 then num
          else (num * (-(jp.2.x : ℤ))).tmod PRIME) 1).tmod PRIME + PRIME).tmod PRIME).toNat) * modInverse ((((S.enum.foldl (fun den jp => if ip.1 = jp.1 then den
          else (den * ((ip.2.x : ℤ) - (jp.2.x : ℤ))).tmod PRIME) 1).tmod PRIME + PRIME).tmod PRIME).toNat) PRIME % PRIME) : ℕ) : ZMod PRIME)).sum
        = ∑ j : Fin S.length, ((hexToBigInt (S.get j).y * (((((S.enum.foldl (fun num jp => if j.val = jp.1 then num
          else (num * (-(jp.2.x : ℤ))).tmod PRIME) 1).tmod PRIME + PRIME).tmod PRIME).toNat) * modInverse ((((S.enum.foldl (fun den jp => if j.val = jp.1 then den
          else (den * (((S.get j).x : ℤ) - (jp.2.x : ℤ))).tmod PRIME) 1).tmod PRIME + PRIME).tmod PRIME).toNat) PRIME % PRIME) : ℕ) : ZMod PRIME) :=
      enum_map_sum S _
    rw [h2]
    rw [Finset.sum_congr rfl (fun j _ => hterm j)]
    have h3 : Polynomial.eval 0 (Lagrange.interpolate Finset.univ (fun m : Fin S.length => (((S.get m).x : ℕ) : ZMod PRIME))
          (fun i => Polynomial.eval (((S.get i).x : ℕ) : ZMod PRIME) (coeffs.foldr (fun c q => Polynomial.C (c : ZMod PRIME) + Polynomial.X * q) 0)))
        = ∑ j : Fin S.length,
            Polynomial.eval (((S.get j).x : ℕ) : ZMod PRIME) (coeffs.foldr (fun c q => Polynomial.C (c : ZMod PRIME) + Polynomial.X * q) 0) *
              Polynomial.eval 0 (Lagrange.basis Finset.univ (fun m : Fin S.length => (((S.get m).x : ℕ) : ZMod PRIME)) j) :=
      interpolate_eval_zero _ _
    rw [← h3, ← hQ]
    obtain ⟨c0, rest, rfl⟩ := List.exists_cons_of_ne_nil hcne
    have h4 : ((c0 :: rest).foldr (fun c q => Polynomial.C (c : ZMod PRIME) + Polynomial.X * q) 0)
        = Polynomial.C (c0 : ZMod PRIME) + Polynomial.X *
            (rest.foldr (fun c q => Polynomial.C (c : ZMod PRIME) + Polynomial.X * q) 0) := rfl
    rw [h4]
    simp
  have hg1 : ¬ (S.length < 2) := by omega
  have hg2 : ¬ ¬ (S.map (·.x)).Nodup := not_not_intro hx
  unfold combineShares
  rw [if_neg hg1, if_neg hg2]
  show Except.ok (bigIntToHex ((S.enum.foldl (combineStep S) 0 % PRIME + PRIME) % PRIME))
      = Except.ok (bigIntToHex (coeffs.headD 0 % PRIME))
  have harg : (S.enum.foldl (combineStep S) 0 % PRIME + PRIME) % PRIME
      = coeffs.headD 0 % PRIME := by
    rw [Nat.add_mod_right, Nat.mod_mod_of_dvd _ dvd_rfl]
    refine natCast_zmod_inj_of_lt (Nat.mod_lt _ PRIME_pos) (Nat.mod_lt _ PRIME_pos) ?_
    rw [ZMod.natCast_mod, ZMod.natCast_mod, hfold]
  rw [harg]

end Shamir

/-- **C1.** For every secret `s < n`, parameters `2 ≤ k ≤ t ≤ 255`, and random
coefficients drawn for the polynomial, every sublist `S` of at least `k` of the
shares returned by `splitSecret` is combined by `combineShares` back to the
64-digit hex encoding of `s`. -/
theorem splitSecret_combineShares_roundtrip
    (s t k : ℕ) (randomCoeffs : List ℕ) (shares S : List Shamir.Share)
    (hs : s < Shamir.PRIME) (hk2 : 2 ≤ k) (hkt : k ≤ t) (ht : t ≤ 255)
    (hrand : randomCoeffs.length = k - 1)
    (hsplit : Shamir.splitSecret (Shamir.bigIntToHex s) t k randomCoeffs = .ok shares)
    (hsub : S.Sublist shares) (hSk : k ≤ S.length) :
    Shamir.combineShares S = .ok (Shamir.bigIntToHex s) := by
  unfold Shamir.splitSecret at hsplit
  rw [Shamir.hexToBigInt_bigIntToHex] at hsplit
  split_ifs at hsplit with h1 h2 h3
  dsimp only at hsplit
  split_ifs at hsplit with h4
  injection hsplit with hsh
  subst hsh
  have hclen : (s :: randomCoeffs).length ≤ S.length := by
    rw [List.length_cons, hrand]
    omega
  have hS2 : 2 ≤ S.length := by omega
  have hxnd : (S.map (·.x)).Nodup := by
    have hmap : ((List.range t).map (fun i =>
        ({ x := i + 1,
           y := Shamir.bigIntToHex
             (Shamir.evaluatePolynomial (s :: randomCoeffs) (i + 1)) } : Shamir.Share))).map
          (·.x)
        = (List.range t).map (fun i => i + 1) := by
      rw [List.map_map]
      rfl
    have hinj : Function.Injective (fun i : ℕ => i + 1) := add_left_injective 1
    have hnd : ((List.range t).map (fun i => i + 1)).Nodup :=
      (List.nodup_range t).map hinj
    exact ((hsub.map (·.x)).trans (hmap ▸ List.Sublist.refl _)).nodup hnd
  have hxlt : ∀ sh ∈ S, sh.x < Shamir.PRIME := by
    intro sh hshS
    obtain ⟨i, hi, rfl⟩ := List.mem_map.mp (hsub.subset hshS)
    have hit : i < t := List.mem_range.mp hi
    have h256 : 256 < Shamir.PRIME := by decide
    show i + 1 < Shamir.PRIME
    omega
  have hy : ∀ sh ∈ S,
      Shamir.hexToBigInt sh.y = Shamir.evaluatePolynomial (s :: randomCoeffs) sh.x := by
    intro sh hshS
    obtain ⟨i, hi, rfl⟩ := List.mem_map.mp (hsub.subset hshS)
    show Shamir.hexToBigInt (Shamir.bigIntToHex _) = _
    rw [Shamir.hexToBigInt_bigIntToHex]
  have hres := Shamir.combineShares_correct (s :: randomCoeffs) S hS2 hclen
    (List.cons_ne_nil s randomCoeffs) hxnd hxlt hy
  rw [hres]
  have hhead : (s :: randomCoeffs).headD 0 % Shamir.PRIME = s := by
    simp [Nat.mod_eq_of_lt hs]
  rw [hhead]

set_option maxRecDepth 1000000 in
/-- Witness for **C1**: splitting the secret `1` into 3 shares with threshold 2
and random coefficient 5, then combining the first two shares, recovers the
secret. -/
theorem splitSecret_combineShares_roundtrip_witness :
    Shamir.splitSecret (Shamir.bigIntToHex 1) 3 2 [5]
        = .ok [⟨1, "0000000000000000000000000000000000000000000000000000000000000006"⟩,
               ⟨2, "000000000000000000000000000000000000000000000000000000000000000b"⟩,
               ⟨3, "0000000000000000000000000000000000000000000000000000000000000010"⟩]
      ∧ Shamir.combineShares
          [⟨1, "0000000000000000000000000000000000000000000000000000000000000006"⟩,
           ⟨2, "000000000000000000000000000000000000000000000000000000000000000b"⟩]
        = .ok (Shamir.bigIntToHex 1) :=
  ⟨by rfl, splitSecret_combineShares_roundtrip 1 3 2 [5]
    [⟨1, "0000000000000000000000000000000000000000000000000000000000000006"⟩,
     ⟨2, "000000000000000000000000000000000000000000000000000000000000000b"⟩,
     ⟨3, "0000000000000000000000000000000000000000000000000000000000000010"⟩]
    [⟨1, "0000000000000000000000000000000000000000000000000000000000000006"⟩,
     ⟨2, "000000000000000000000000000000000000000000000000000000000000000b"⟩]
    (by decide) (by decide) (by decide) (by decide) (by decide)
    (by rfl) (by decide) (by decide)⟩
